import Mathlib

/-! # PocketSmart AI front end (`main.js`): chat turn, budget analysis, donut chart, markdown

A shallow embedding of the parts of `main.js` that the specification talks about: first the
definitions, then the theorems about them, one per claim `C1` to `C10` of the specification.

Conventions of the embedding.

* A JavaScript string is a `String` (a list of code points).  The regular expressions of the
  source have no `u` flag and only ASCII delimiters, so matching per code point and per
  UTF-16 unit give the same result on well-formed text.
* A finite JavaScript number is the rational it denotes (every finite double is a rational);
  `Option ℚ` adds the one non-finite value the code tests for, `NaN` (`none`), which is what
  `parseFloat` returns for an empty or non-numeric field and what a missing response field
  behaves like under `||`, `>` and `>=`.  Comparisons of doubles are exact, so `<`, `≤`, `=`
  on `ℚ` are the comparisons of the source.
* Arithmetic results are passed through a rounding function `fl : ℚ → ℚ`: IEEE-754
  arithmetic returns the rounded exact result.  `fl := binary64` is double precision,
  `fl := fun x => x` is exact arithmetic.
* An `await` splits a handler into the part before the request and the part after the
  response; the response is an input of the second part.
-/

set_option linter.unusedVariables false

namespace PocketSmart

/-! ## Text primitives of the platform -/

/-- Line terminators of ECMAScript: the characters `.` does not match and after which a
multiline `^` matches. -/
def isLineTerminator (c : Char) : Bool :=
  c = '\n' || c = '\r' || c = Char.ofNat 0x2028 || c = Char.ofNat 0x2029

/-- The class `\s`, which is also what `String.prototype.trim` strips: WhiteSpace and
LineTerminator code points. -/
def isJsSpace (c : Char) : Bool :=
  c = '\t' || c = '\n' || c = Char.ofNat 0x0B || c = Char.ofNat 0x0C || c = '\r' || c = ' '
    || c = Char.ofNat 0xA0 || c = Char.ofNat 0x1680
    || (0x2000 ≤ c.toNat && c.toNat ≤ 0x200A)
    || c = Char.ofNat 0x2028 || c = Char.ofNat 0x2029 || c = Char.ofNat 0x202F
    || c = Char.ofNat 0x205F || c = Char.ofNat 0x3000 || c = Char.ofNat 0xFEFF

/-- The class `\w` (no `i`, no `u` flag): `[A-Za-z0-9_]`. -/
def isWordChar (c : Char) : Bool :=
  ('a' ≤ c && c ≤ 'z') || ('A' ≤ c && c ≤ 'Z') || ('0' ≤ c && c ≤ '9') || c = '_'

/-- The method `trim()` on the characters of a string. -/
def jsTrim (s : List Char) : List Char :=
  ((s.dropWhile isJsSpace).reverse.dropWhile isJsSpace).reverse

/-- The expression `value.replace(/[^\w\s\/&]/g, '').trim()` of `analyzeBudget` (line 155) and
`drawDonut` (line 259): drop every character outside `\w`, `\s`, `/`, `&`, then trim. -/
def cleanCat (s : String) : String :=
  ⟨jsTrim (s.data.filter fun c => isWordChar c || isJsSpace c || c = '/' || c = '&')⟩

/-! ## Markdown formatter (`formatMarkdown`, lines 319-329) -/

/-- The backtick character. -/
def backtick : Char := Char.ofNat 96

/-- A text with no `*`, no backtick and no line terminator. -/
def plainText (s : String) : Prop :=
  ∀ ch ∈ s.data, ch ≠ '*' ∧ ch ≠ backtick ∧ isLineTerminator ch = false

instance (s : String) : Decidable (plainText s) := by
  unfold plainText
  infer_instance


/-- The tail `(.*?)D` of the patterns `/D(.*?)D/`, tried at the start of the given text: the
lazy group grows one character at a time until the closing delimiter `d` matches; it cannot
grow over a line terminator.  Returns the group and the text after the closing delimiter. -/
def lazyUntil (d : List Char) : List Char → Option (List Char × List Char)
  | [] => none
  | c :: cs =>
    if d.isPrefixOf (c :: cs) then some ([], (c :: cs).drop d.length)
    else if isLineTerminator c then none
    else (lazyUntil d cs).map fun gr => (c :: gr.1, gr.2)

/-- Global replace of `/D(.*?)D/g` by `pre$1post` for a literal delimiter `D`, scanning left to
right.  The counter is the number of characters still covered by the match that was just
replaced (the search resumes at its end); at counter `0` a match is attempted at the current
position and, failing that, the character is copied. -/
def replaceDelimGo (d pre post : List Char) : Nat → List Char → List Char
  | _, [] => []
  | skip + 1, _ :: cs => replaceDelimGo d pre post skip cs
  | 0, c :: cs =>
    if d.isPrefixOf (c :: cs) then
      match lazyUntil d ((c :: cs).drop d.length) with
      | some (g, _) =>
        pre ++ g ++ post ++ replaceDelimGo d pre post (2 * d.length + g.length - 1) cs
      | none => c :: replaceDelimGo d pre post 0 cs
    else c :: replaceDelimGo d pre post 0 cs

/-- The call `.replace(/D(.*?)D/g, 'pre$1post')`. -/
def replaceDelim (d pre post : String) (s : List Char) : List Char :=
  replaceDelimGo d.data pre.data post.data 0 s

/-- The pattern `#{1,3} (.+)` tried at a line start: the greedy `#{1,3}` tries three, two, then
one `#`; a space must follow; the greedy `.+` takes the rest of the line, at least one
character.  Returns the number of `#` and the group. -/
def headingAt (s : List Char) : Option (Nat × List Char) :=
  [3, 2, 1].findSome? fun n =>
    if (List.replicate n '#' ++ [' ']).isPrefixOf s then
      let g := (s.drop (n + 1)).takeWhile fun c => !isLineTerminator c
      if g.isEmpty then none else some (n, g)
    else none

/-- Global multiline replace of `/^#{1,3} (.+)/gm` by `pre$1post`.  The flag says whether the
current position is a line start (start of input or just after a line terminator); the
counter is as in `replaceDelimGo`. -/
def replaceHeadingsGo (pre post : List Char) : Bool → Nat → List Char → List Char
  | _, _, [] => []
  | _, skip + 1, c :: cs => replaceHeadingsGo pre post (isLineTerminator c) skip cs
  | lineStart, 0, c :: cs =>
    if lineStart then
      match headingAt (c :: cs) with
      | some (n, g) =>
        pre ++ g ++ post ++ replaceHeadingsGo pre post (isLineTerminator c) (n + g.length) cs
      | none => c :: replaceHeadingsGo pre post (isLineTerminator c) 0 cs
    else c :: replaceHeadingsGo pre post (isLineTerminator c) 0 cs

/-- The call `.replace(/^#{1,3} (.+)/gm, 'pre$1post')`. -/
def replaceHeadings (pre post : String) (s : List Char) : List Char :=
  replaceHeadingsGo pre.data post.data true 0 s

/-- Global replace of a literal, non-empty pattern (`/\n\n/g`, `/\n/g`), left to right,
non-overlapping; the counter is as in `replaceDelimGo`. -/
def replaceLitGo (pat rep : List Char) : Nat → List Char → List Char
  | _, [] => []
  | skip + 1, _ :: cs => replaceLitGo pat rep skip cs
  | 0, c :: cs =>
    if pat.isPrefixOf (c :: cs) then rep ++ replaceLitGo pat rep (pat.length - 1) cs
    else c :: replaceLitGo pat rep 0 cs

/-- The call `.replace(/pat/g, 'rep')` for a literal pattern. -/
def replaceLit (pat rep : String) (s : List Char) : List Char :=
  replaceLitGo pat.data rep.data 0 s

/-- The opening tag of rule 3, with its fixed inline style. -/
def codeOpen : String :=
  "<code style=\"background:rgba(255,255,255,0.07);padding:2px 6px;border-radius:4px;font-size:13px\">"

/-- The opening tag of rule 4. -/
def headingOpen : String := "<strong style=\"font-size:15px;color:var(--text)\">"

/-- The function `formatMarkdown(text)`: eight chained `replace` calls.  The last two,
`/^/` and `/$/` without flags, match once, at the start and at the end of the text. -/
def formatMarkdown (text : String) : String :=
  let s1 := replaceDelim "**" "<strong>" "</strong>" text.data
  let s2 := replaceDelim "*" "<em>" "</em>" s1
  let s3 := replaceDelim "`" codeOpen "</code>" s2
  let s4 := replaceHeadings headingOpen "</strong>" s3
  let s5 := replaceLit "\n\n" "</p><p>" s4
  let s6 := replaceLit "\n" "<br>" s5
  ⟨"<p>".data ++ s6 ++ "</p>".data⟩

/-- The text `t` of the specification of paragraphs and line breaks, read in one pass:
pairs of consecutive newlines, taken left to right without overlap, become `</p><p>`, every
other newline becomes `<br>`, every other character is copied. -/
def specBreaks : List Char → List Char
  | '\n' :: '\n' :: rest => "</p><p>".data ++ specBreaks rest
  | '\n' :: rest => "<br>".data ++ specBreaks rest
  | c :: rest => c :: specBreaks rest
  | [] => []

/-! ## Chat turn (`sendMessage`, lines 24-57) -/

/-- An entry of the global `chatHistory`. -/
structure ChatMessage where
  role : String
  content : String
deriving DecidableEq

/-- A child of the `#chatMessages` element: a rendered message or a typing placeholder. -/
inductive ChatNode where
  | message (className avatarClass avatarText bubble : String)
  | typing (id : String)
deriving DecidableEq

/-- The part of the page the chat handler reads and writes. -/
structure ChatState where
  chatHistory : List ChatMessage
  chatMessages : List ChatNode
  chatInput : String
  sendBtnDisabled : Bool
deriving DecidableEq

/-- The body of the request to `/chat`. -/
structure ChatRequest where
  message : String
  history : List ChatMessage
deriving DecidableEq

/-- What the awaited `fetch` and `res.json()` produce: an exception (the request or the
parsing of the body failed), or a body whose `status` and `response` fields are read.  A field
is `none` when it is absent or not a string. -/
inductive ChatOutcome where
  | error
  | data (status response : Option String)
deriving DecidableEq

/-- The function `appendMessage(role, text)` (lines 59-72), without the scrolling. -/
def appendMessage (role text : String) (wrap : List ChatNode) : List ChatNode :=
  wrap ++ [ChatNode.message
    ("message " ++ (if role = "bot" then "bot-message" else "user-message") ++ " animate-in")
    ("msg-avatar " ++ (if role = "bot" then "bot-avatar" else "user-avatar"))
    (if role = "bot" then "PS" else "ME")
    (formatMarkdown text)]

/-- The function `showTyping()` (lines 74-89); `now` is the value of `Date.now()`. -/
def showTyping (now : Nat) (wrap : List ChatNode) : List ChatNode × String :=
  (wrap ++ [ChatNode.typing ("typing-" ++ toString now)], "typing-" ++ toString now)

/-- The function `removeTyping(id)` (lines 91-94): the first element with that id, if any, is
removed. -/
def removeTyping (id : String) (wrap : List ChatNode) : List ChatNode :=
  wrap.erase (ChatNode.typing id)

/-- The notice of the `else` branch (line 50). -/
def somethingWentWrong : String := "⚠️ Something went wrong. Please try again."

/-- The notice of the `catch` branch (line 54). -/
def connectionError : String := "⚠️ Connection error. Please check your server."

/-- Lines 25-42 of `sendMessage`: up to the call of `fetch`.  Returns the page and, unless the
trimmed input is empty, the typing id and the request that is sent. -/
def sendMessageStart (now : Nat) (s : ChatState) : ChatState × Option (String × ChatRequest) :=
  let msg : String := ⟨jsTrim s.chatInput.data⟩
  if msg = "" then (s, none)
  else
    let chatHistory := s.chatHistory ++ [⟨"user", msg⟩]
    let typing := showTyping now (appendMessage "user" msg s.chatMessages)
    ({ chatHistory := chatHistory, chatMessages := typing.1, chatInput := "",
       sendBtnDisabled := true },
     some (typing.2, { message := msg, history := chatHistory.dropLast }))

/-- The `catch` block and the last line (lines 52-56). -/
def sendMessageCatch (s : ChatState) (typingId : String) : ChatState :=
  { s with
    chatMessages := appendMessage "bot" connectionError (removeTyping typingId s.chatMessages),
    sendBtnDisabled := false }

/-- Lines 43-56 of `sendMessage`: from the response on.  A `response` that is not a string
makes `formatMarkdown` throw inside `appendMessage`, before the push on line 48, and the
`catch` block runs. -/
def sendMessageFinish (s : ChatState) (typingId : String) : ChatOutcome → ChatState
  | ChatOutcome.error => sendMessageCatch s typingId
  | ChatOutcome.data status response =>
    let s1 := { s with chatMessages := removeTyping typingId s.chatMessages }
    if status = some "success" then
      match response with
      | some r =>
        { s1 with
          chatMessages := appendMessage "bot" r s1.chatMessages,
          chatHistory := s1.chatHistory ++ [⟨"assistant", r⟩],
          sendBtnDisabled := false }
      | none => sendMessageCatch s1 typingId
    else
      { s1 with
        chatMessages := appendMessage "bot" somethingWentWrong s1.chatMessages,
        sendBtnDisabled := false }

/-- One whole chat turn: `sendMessage()` with the outcome of its request. -/
def sendMessage (now : Nat) (s : ChatState) (outcome : ChatOutcome) : ChatState :=
  match sendMessageStart now s with
  | (s1, none) => s1
  | (s1, some (typingId, _)) => sendMessageFinish s1 typingId outcome

/-! ## Numbers -/

/-- The operand `x` of `x || 0` and of `!x` when `x` is a number or `NaN`: `NaN` and `0` are
the falsy numbers, so `x || 0` is `0` for both and `x` otherwise. -/
def orZero : Option ℚ → ℚ
  | some q => q
  | none => 0

/-- The comparison `x > 0` of a possibly-`NaN` number: false for `NaN`. -/
def isPositive : Option ℚ → Bool
  | some q => decide (0 < q)
  | none => false

/-- The comparison `x >= 0` of a possibly-`NaN` number: false for `NaN`. -/
def isNonNegative : Option ℚ → Bool
  | some q => decide (0 ≤ q)
  | none => false

/-- The constant `Math.PI`: the double nearest to pi, as the rational it is. -/
def Math_PI : ℚ := 884279719003555 / 281474976710656

/-- The function `Math.round`: the nearest integer, a tie going to the larger one. -/
def jsRound (x : ℚ) : ℤ := ⌊x + 1 / 2⌋

/-- Number of binary digits of `n`; the first argument bounds the recursion and is passed
as `n`. -/
def bitLength : Nat → Nat → Nat
  | 0, _ => 0
  | fuel + 1, n => if n = 0 then 0 else bitLength fuel (n / 2) + 1

/-- The integer `e` with `2^e ≤ n/d < 2^(e+1)`, for positive `n` and `d`. -/
def floorLog2 (n d : Nat) : Int :=
  let e : Int := (bitLength n n : Int) - (bitLength d d : Int)
  if (if 0 ≤ e then d * 2 ^ e.toNat ≤ n else d ≤ n * 2 ^ (-e).toNat) then e else e - 1

/-- The fraction `n/d` rounded to an integer, a tie going to the even one. -/
def roundHalfEven (n d : Nat) : Nat :=
  if 2 * (n % d) < d then n / d
  else if d < 2 * (n % d) then n / d + 1
  else if (n / d) % 2 = 0 then n / d else n / d + 1

/-- IEEE-754 double precision rounding (round to nearest, ties to even) of an exact result:
53 significant bits, least exponent `-1022` (below it the spacing stays `2^-1074`).  Results
of magnitude `2^1024` or more, which IEEE arithmetic turns into an infinity, are outside the
finite numbers of this embedding. -/
def binary64 (q : ℚ) : ℚ :=
  if q = 0 then 0
  else
    let n := q.num.natAbs
    let d := q.den
    let s : Int := 52 - max (floorLog2 n d) (-1022)
    let r : ℚ :=
      if 0 ≤ s then (roundHalfEven (n * 2 ^ s.toNat) d : ℚ) / 2 ^ s.toNat
      else (roundHalfEven n (d * 2 ^ (-s).toNat) : ℚ) * 2 ^ (-s).toNat
    if q < 0 then -r else r

/-! ## Budget analysis (`analyzeBudget`, `showBudgetResult`, `drawDonut`, lines 148-279) -/

/-- An entry of the `expenses` array: `{ category, amount }`. -/
structure Expense where
  category : String
  amount : ℚ
deriving DecidableEq

/-- An `.expense-row` of the form as the handler reads it: the value of its category select
and the result of `parseFloat` on its amount field (`none` is `NaN`: an empty or non-numeric
field). -/
structure ExpenseRow where
  cat : String
  amt : Option ℚ
deriving DecidableEq

/-- The object passed to `JSON.stringify` for `/analyze-budget`. -/
structure BudgetRequest where
  income : ℚ
  expenses : List Expense
deriving DecidableEq

/-- The fields of the response of `/analyze-budget` that `showBudgetResult` reads; a numeric
field is `none` when it is absent or `null`. -/
structure BudgetData where
  total_expenses : Option ℚ
  savings : Option ℚ
  savings_percent : Option ℚ
  analysis : String
deriving DecidableEq

/-- How the first part of `analyzeBudget` ends: one of the two `alert`s, or the request. -/
inductive BudgetStart where
  | alert (msg : String)
  | request (req : BudgetRequest)
deriving DecidableEq

/-- The body of the `rows.forEach` callback (lines 155-157). -/
def pushExpense (expenses : List Expense) (row : ExpenseRow) : List Expense :=
  let cat := cleanCat row.cat
  let amt := orZero row.amt
  if amt > 0 then expenses ++ [{ category := cat, amount := amt }] else expenses

/-- Lines 149-171 of `analyzeBudget`: up to the call of `fetch`.  `incomeField` is the
result of `parseFloat` on the income field. -/
def analyzeBudgetStart (incomeField : Option ℚ) (rows : List ExpenseRow) : BudgetStart :=
  let income := orZero incomeField
  if income = 0 then BudgetStart.alert "Please enter your monthly income."
  else
    let expenses := rows.foldl pushExpense []
    if expenses.length = 0 then BudgetStart.alert "Please add at least one expense."
    else BudgetStart.request { income := income, expenses := expenses }

/-- A call on the 2D context of the `#donutChart` canvas.  `wedge` is the path
`moveTo(cx, cy); arc(cx, cy, r, startAngle, endAngle); closePath()` filled with `fillStyle`;
`disc` is the path `arc(cx, cy, r, startAngle, endAngle)` filled with `fillStyle`. -/
inductive DrawOp where
  | clearRect (x y w h : ℚ)
  | wedge (cx cy r startAngle endAngle : ℚ) (fillStyle : String)
  | disc (cx cy r startAngle endAngle : ℚ) (fillStyle : String)
  | fillText (text : String) (x y : ℚ) (font fillStyle : String)
deriving DecidableEq

/-- A `.legend-item` of `#donutLegend`: the colour of its dot, its label and its percentage. -/
structure LegendEntry where
  color : String
  label : String
  pct : ℤ
deriving DecidableEq

/-- The palette of `drawDonut` (line 228). -/
def colors : List String :=
  ["#00e5a0", "#00b8ff", "#a78bfa", "#ff5b7f", "#ffb347", "#f472b6", "#34d399", "#60a5fa",
   "#fb923c", "#e879f9", "#94a3b8"]

/-- The array `items` of `drawDonut` (lines 234-235). -/
def donutItems (expenses : List Expense) (savings : Option ℚ) : List Expense :=
  if isPositive savings then expenses ++ [{ category := "💾 Savings", amount := orZero savings }]
  else expenses

/-- The variables the `items.forEach` callback updates. -/
structure DonutAcc where
  startAngle : ℚ
  ops : List DrawOp
  legend : List LegendEntry
deriving DecidableEq

/-- The body of the `items.forEach` callback (lines 242-267) for the item at index `i`. -/
def drawItem (fl : ℚ → ℚ) (total : ℚ) (acc : DonutAcc) (i : Nat) (item : Expense) : DonutAcc :=
  let slice := fl (fl (fl (item.amount / total) * 2) * Math_PI)
  let color := colors.getD (i % colors.length) ""
  let pct := jsRound (fl (fl (item.amount / total) * 100))
  { startAngle := fl (acc.startAngle + slice),
    ops := acc.ops ++
      [DrawOp.wedge 100 100 75 acc.startAngle (fl (acc.startAngle + slice)) color,
       DrawOp.disc 100 100 48 0 (fl (2 * Math_PI)) "#0f1118"],
    legend := acc.legend ++ [{ color := color, label := cleanCat item.category, pct := pct }] }

/-- The loop `items.forEach((item, i) => ...)`, from index `i` on. -/
def drawItems (fl : ℚ → ℚ) (total : ℚ) : Nat → DonutAcc → List Expense → DonutAcc
  | _, acc, [] => acc
  | i, acc, item :: rest => drawItems fl total (i + 1) (drawItem fl total acc i item) rest

/-- What a call of `drawDonut` leaves: the calls it made on the canvas context, in order, and
the content of the legend. -/
structure Donut where
  ops : List DrawOp
  legend : List LegendEntry
deriving DecidableEq

/-- The function `drawDonut(expenses, totalExp, income, savings)`.  `legend0` is the content
of `#donutLegend` before the call; line 239 empties it. -/
def drawDonut (fl : ℚ → ℚ) (legend0 : List LegendEntry) (expenses : List Expense)
    (totalExp : Option ℚ) (income : ℚ) (savings : Option ℚ) : Donut :=
  let start : DonutAcc :=
    { startAngle := fl (-Math_PI / 2),
      ops := [DrawOp.clearRect 0 0 200 200],
      legend := legend0.take 0 }
  let items := donutItems expenses savings
  let total := income
  let acc := drawItems fl total 0 start items
  { ops := acc.ops ++
      [DrawOp.fillText "Budget" 100 (fl (100 - 8)) "bold 13px Syne, sans-serif" "#e8eaf0",
       DrawOp.fillText "breakdown" 100 (fl (100 + 9)) "11px DM Sans, sans-serif" "#8890a4"],
    legend := acc.legend }

/-- The wedges among the calls on the canvas: start angle, end angle and colour of each. -/
def wedges (ops : List DrawOp) : List (ℚ × ℚ × String) :=
  ops.filterMap fun op =>
    match op with
    | DrawOp.wedge _ _ _ a b c => some (a, b, c)
    | _ => none

/-- The part of the page `showBudgetResult` writes.  The four statistics are kept as the
numbers and colours that the template formats (`toLocaleString` is not modelled). -/
structure BudgetView where
  resultDisplay : String
  badgeText : String
  badgeClass : String
  statIncome : ℚ
  statExpenses : Option ℚ
  statSavingsAbs : Option ℚ
  statSavingsColor : String
  statSavingsLabel : String
  statSavedColor : String
  statSaved : ℚ
  donut : Donut
  analysisText : String
deriving DecidableEq

/-- The function `showBudgetResult(income, expenses, data)` (lines 183-223).  Returns the page
and whether the call completed: `data.total_expenses.toLocaleString()` throws when the field
is absent, after the badge is set and before the statistics, chart and analysis are written. -/
def showBudgetResult (fl : ℚ → ℚ) (v : BudgetView) (income : ℚ) (expenses : List Expense)
    (data : BudgetData) : BudgetView × Bool :=
  let savPct := orZero data.savings_percent
  let v1 : BudgetView :=
    if savPct ≥ 20 then
      { v with resultDisplay := "block", badgeText := "✅ Healthy",
               badgeClass := "health-badge health-good" }
    else if savPct ≥ 5 then
      { v with resultDisplay := "block", badgeText := "⚠️ Warning",
               badgeClass := "health-badge health-warn" }
    else
      { v with resultDisplay := "block", badgeText := "🚨 Critical",
               badgeClass := "health-badge health-danger" }
  match data.total_expenses with
  | none => (v1, false)
  | some totalExpenses =>
    ({ v1 with
       statIncome := income,
       statExpenses := some totalExpenses,
       statSavingsAbs := data.savings.map fun x => |x|,
       statSavingsColor := if isNonNegative data.savings then "var(--accent)" else "var(--danger)",
       statSavingsLabel := if isNonNegative data.savings then "Savings" else "Deficit",
       statSavedColor :=
         if savPct ≥ 20 then "var(--accent)" else if savPct ≥ 5 then "var(--warn)"
         else "var(--danger)",
       statSaved := savPct,
       donut := drawDonut fl v1.donut.legend expenses data.total_expenses income data.savings,
       analysisText := data.analysis }, true)

/-- What a call of `analyzeBudget` leaves: the page and the `alert`, if one was shown. -/
structure BudgetOutcome where
  view : BudgetView
  alert : Option String
  sent : Option BudgetRequest
deriving DecidableEq

/-- The function `analyzeBudget()` with the outcome of its request: `response` is `none` when
`fetch` or `res.json()` throws. -/
def analyzeBudget (fl : ℚ → ℚ) (v : BudgetView) (incomeField : Option ℚ) (rows : List ExpenseRow)
    (response : Option BudgetData) : BudgetOutcome :=
  match analyzeBudgetStart incomeField rows with
  | BudgetStart.alert msg => { view := v, alert := some msg, sent := none }
  | BudgetStart.request req =>
    match response with
    | none =>
      { view := v, alert := some "Error analyzing budget. Please try again.", sent := some req }
    | some data =>
      let r := showBudgetResult fl v req.income req.expenses data
      { view := r.1,
        alert := if r.2 then none else some "Error analyzing budget. Please try again.",
        sent := some req }

/-- The wedges the loop `drawItems` draws, as a list: from the start angle `a` and the index
`i`, each item gives the wedge from the running angle to the running angle plus its slice, in
the colour of its index. -/
def wedgeSeq (fl : ℚ → ℚ) (total : ℚ) : Nat → ℚ → List Expense → List (ℚ × ℚ × String)
  | _, _, [] => []
  | i, a, item :: rest =>
    (a, fl (a + fl (fl (fl (item.amount / total) * 2) * Math_PI)),
      colors.getD (i % colors.length) "")
      :: wedgeSeq fl total (i + 1) (fl (a + fl (fl (fl (item.amount / total) * 2) * Math_PI))) rest

/-- Five expense rows: amounts `-3`, `1200`, empty, `0` and `80.5`. -/
def sampleRows : List ExpenseRow :=
  [{ cat := "Other", amt := some (-3) }, { cat := "🏠 Housing/Rent", amt := some 1200 },
   { cat := "🚗 Transport", amt := none }, { cat := "Other", amt := some 0 },
   { cat := "🍔 Food & Groceries", amt := some (161 / 2) }]

/-- A chat page after one exchange, with ` hi ` typed in the input. -/
def sampleChat : ChatState :=
  { chatHistory := [⟨"user", "hello"⟩, ⟨"assistant", "Hi!"⟩],
    chatMessages :=
      [ChatNode.message "message user-message animate-in" "msg-avatar user-avatar" "ME"
         "<p>hello</p>",
       ChatNode.message "message bot-message animate-in" "msg-avatar bot-avatar" "PS"
         "<p>Hi!</p>"],
    chatInput := " hi ",
    sendBtnDisabled := false }

/-- The expenses of the chart example of the specification: `3000` and `7000`. -/
def sampleExpenses : List Expense :=
  [{ category := "Food", amount := 3000 }, { category := "Rent", amount := 7000 }]

/-- A budget page on which no analysis has been shown yet. -/
def sampleView : BudgetView :=
  { resultDisplay := "none", badgeText := "", badgeClass := "health-badge",
    statIncome := 0, statExpenses := none, statSavingsAbs := none, statSavingsColor := "",
    statSavingsLabel := "", statSavedColor := "", statSaved := 0,
    donut := { ops := [], legend := [] }, analysisText := "" }

/-! ## Double precision rounding -/

/-- The recursion bound of `bitLength` suffices: for `0 < n ≤ fuel` the result `b` is the
number of binary digits of `n`, that is `2^(b-1) ≤ n < 2^b`. -/
theorem bitLength_spec (fuel : Nat) : ∀ n : Nat, n ≤ fuel → 0 < n →
    2 ^ (bitLength fuel n - 1) ≤ n ∧ n < 2 ^ bitLength fuel n ∧ 0 < bitLength fuel n := by
  induction fuel with
  | zero => intro n h1 h2; omega
  | succ fuel ih =>
    intro n hle hpos
    have hne : n ≠ 0 := by omega
    simp only [bitLength, hne, if_false]
    by_cases h2 : n / 2 = 0
    · have h1 : n = 1 := by omega
      subst h1
      cases fuel with
      | zero => simp [bitLength]
      | succ f => simp [bitLength]
    · have hle2 : n / 2 ≤ fuel := by omega
      obtain ⟨ha, hb, hc⟩ := ih (n / 2) hle2 (by omega)
      refine ⟨?_, ?_, by omega⟩
      · have : bitLength fuel (n / 2) + 1 - 1 = (bitLength fuel (n / 2) - 1) + 1 := by omega
        rw [this, pow_succ]
        omega
      · rw [pow_succ]
        omega

/-- The exponent `floorLog2 n d` is the integer `e` with `2^e ≤ n/d < 2^(e+1)`. -/
theorem floorLog2_spec (n d : Nat) (hn : 0 < n) (hd : 0 < d) :
    (2 : ℚ) ^ floorLog2 n d ≤ (n : ℚ) / d ∧ (n : ℚ) / d < (2 : ℚ) ^ (floorLog2 n d + 1) := by
  obtain ⟨ha1, ha2, ha3⟩ := bitLength_spec n n (le_refl _) hn
  obtain ⟨hb1, hb2, hb3⟩ := bitLength_spec d d (le_refl _) hd
  have hnq : (0 : ℚ) < n := by exact_mod_cast hn
  have hdq : (0 : ℚ) < d := by exact_mod_cast hd
  have two_pos : ∀ z : ℤ, (0 : ℚ) < 2 ^ z := fun z => zpow_pos (by norm_num) z
  -- the bounds on n and d, as rationals with integer exponents
  have cast_pow : ∀ k : Nat, ((2 ^ k : Nat) : ℚ) = (2 : ℚ) ^ (k : ℤ) := by
    intro k; rw [zpow_natCast]; norm_cast
  have hn1 : (2 : ℚ) ^ ((bitLength n n : ℤ) - 1) ≤ n := by
    have : ((2 ^ (bitLength n n - 1) : Nat) : ℚ) ≤ n := by exact_mod_cast ha1
    rw [cast_pow] at this
    have e : ((bitLength n n - 1 : Nat) : ℤ) = (bitLength n n : ℤ) - 1 := by omega
    rwa [e] at this
  have hn2 : (n : ℚ) < (2 : ℚ) ^ (bitLength n n : ℤ) := by
    have : (n : ℚ) < ((2 ^ bitLength n n : Nat) : ℚ) := by exact_mod_cast ha2
    rwa [cast_pow] at this
  have hd1 : (2 : ℚ) ^ ((bitLength d d : ℤ) - 1) ≤ d := by
    have : ((2 ^ (bitLength d d - 1) : Nat) : ℚ) ≤ d := by exact_mod_cast hb1
    rw [cast_pow] at this
    have e : ((bitLength d d - 1 : Nat) : ℤ) = (bitLength d d : ℤ) - 1 := by omega
    rwa [e] at this
  have hd2 : (d : ℚ) < (2 : ℚ) ^ (bitLength d d : ℤ) := by
    have : (d : ℚ) < ((2 ^ bitLength d d : Nat) : ℚ) := by exact_mod_cast hb2
    rwa [cast_pow] at this
  -- the test of the definition compares `2 ^ e` with `n / d`
  have htest : ∀ e : ℤ,
      (if 0 ≤ e then d * 2 ^ e.toNat ≤ n else d ≤ n * 2 ^ (-e).toNat) ↔ (2 : ℚ) ^ e ≤ (n : ℚ) / d := by
    intro e
    rw [le_div_iff₀ hdq]
    split_ifs with he
    · have e1 : (2 : ℚ) ^ e = ((2 ^ e.toNat : Nat) : ℚ) := by
        rw [cast_pow, Int.toNat_of_nonneg he]
      rw [e1]
      constructor
      · intro h
        have : ((d * 2 ^ e.toNat : Nat) : ℚ) ≤ n := by exact_mod_cast h
        push_cast at this ⊢
        linarith
      · intro h
        have : ((d * 2 ^ e.toNat : Nat) : ℚ) ≤ n := by push_cast at h ⊢; linarith
        exact_mod_cast this
    · have hneg : 0 ≤ -e := by omega
      have e1 : (2 : ℚ) ^ e = 1 / ((2 ^ (-e).toNat : Nat) : ℚ) := by
        rw [cast_pow, Int.toNat_of_nonneg hneg, zpow_neg, one_div, inv_inv]
      have hp : (0 : ℚ) < ((2 ^ (-e).toNat : Nat) : ℚ) := by positivity
      rw [e1, div_mul_eq_mul_div, one_mul, div_le_iff₀ hp]
      constructor
      · intro h
        exact_mod_cast h
      · intro h
        exact_mod_cast h
  unfold floorLog2
  simp only
  by_cases ht : (2 : ℚ) ^ ((bitLength n n : ℤ) - (bitLength d d : ℤ)) ≤ (n : ℚ) / d
  · rw [if_pos ((htest _).mpr ht)]
    refine ⟨ht, ?_⟩
    have : (n : ℚ) / d < (2 : ℚ) ^ (bitLength n n : ℤ) / (2 : ℚ) ^ ((bitLength d d : ℤ) - 1) :=
      div_lt_div₀ hn2 hd1 (le_of_lt (two_pos _)) (two_pos _)
    rw [← zpow_sub₀ (by norm_num : (2 : ℚ) ≠ 0)] at this
    have e : (bitLength n n : ℤ) - ((bitLength d d : ℤ) - 1)
        = (bitLength n n : ℤ) - (bitLength d d : ℤ) + 1 := by ring
    rwa [e] at this
  · rw [if_neg (fun h => ht ((htest _).mp h))]
    refine ⟨?_, ?_⟩
    · have : (2 : ℚ) ^ ((bitLength n n : ℤ) - 1) / (2 : ℚ) ^ (bitLength d d : ℤ) ≤ (n : ℚ) / d :=
        div_le_div₀ (le_of_lt hnq) hn1 hdq (le_of_lt hd2)
      rw [← zpow_sub₀ (by norm_num : (2 : ℚ) ≠ 0)] at this
      have e : (bitLength n n : ℤ) - 1 - (bitLength d d : ℤ)
          = (bitLength n n : ℤ) - (bitLength d d : ℤ) - 1 := by ring
      rwa [e] at this
    · have e : (bitLength n n : ℤ) - (bitLength d d : ℤ) - 1 + 1
          = (bitLength n n : ℤ) - (bitLength d d : ℤ) := by ring
      rw [e]
      exact not_le.mp ht

/-- The integer `roundHalfEven n d` is nearest to `n/d`, and even when `n/d` is half way
between two integers. -/
theorem roundHalfEven_spec (n d : Nat) (hd : 0 < d) :
    |((roundHalfEven n d : Nat) : ℚ) - (n : ℚ) / d| ≤ 1 / 2 ∧
    (|((roundHalfEven n d : Nat) : ℚ) - (n : ℚ) / d| = 1 / 2 → roundHalfEven n d % 2 = 0) := by
  have hdq : (0 : ℚ) < d := by exact_mod_cast hd
  have hsplit : (n : ℚ) / d = ((n / d : Nat) : ℚ) + ((n % d : Nat) : ℚ) / d := by
    have h := Nat.div_add_mod n d
    have hq : (n : ℚ) = (d : ℚ) * ((n / d : Nat) : ℚ) + ((n % d : Nat) : ℚ) := by
      exact_mod_cast h.symm
    field_simp
    linarith
  have hr0 : (0 : ℚ) ≤ ((n % d : Nat) : ℚ) / d := by positivity
  have hr1 : ((n % d : Nat) : ℚ) / d < 1 := by
    rw [div_lt_one hdq]
    exact_mod_cast Nat.mod_lt n hd
  unfold roundHalfEven
  split_ifs with h1 h2 h3
  · -- below the half
    have hlt : ((n % d : Nat) : ℚ) / d < 1 / 2 := by
      rw [div_lt_iff₀ hdq]
      have : ((2 * (n % d) : Nat) : ℚ) < d := by exact_mod_cast h1
      push_cast at this
      linarith
    rw [hsplit]
    have e : ((n / d : Nat) : ℚ) - (((n / d : Nat) : ℚ) + ((n % d : Nat) : ℚ) / d)
        = -(((n % d : Nat) : ℚ) / d) := by ring
    rw [e, abs_neg, abs_of_nonneg hr0]
    exact ⟨le_of_lt hlt, fun h => absurd h (ne_of_lt hlt)⟩
  · -- above the half
    have hgt : 1 / 2 < ((n % d : Nat) : ℚ) / d := by
      rw [lt_div_iff₀ hdq]
      have : (d : ℚ) < ((2 * (n % d) : Nat) : ℚ) := by exact_mod_cast h2
      push_cast at this
      linarith
    rw [hsplit]
    have e : (((n / d + 1 : Nat) : ℚ)) - (((n / d : Nat) : ℚ) + ((n % d : Nat) : ℚ) / d)
        = 1 - ((n % d : Nat) : ℚ) / d := by push_cast; ring
    rw [e, abs_of_nonneg (by linarith)]
    exact ⟨by linarith, fun h => absurd h (by linarith)⟩
  · -- the half, quotient even
    have heq : ((n % d : Nat) : ℚ) / d = 1 / 2 := by
      rw [div_eq_iff (ne_of_gt hdq)]
      have : 2 * (n % d) = d := by omega
      have : ((2 * (n % d) : Nat) : ℚ) = d := by exact_mod_cast this
      push_cast at this
      linarith
    rw [hsplit]
    have e : ((n / d : Nat) : ℚ) - (((n / d : Nat) : ℚ) + ((n % d : Nat) : ℚ) / d)
        = -(((n % d : Nat) : ℚ) / d) := by ring
    rw [e, abs_neg, abs_of_nonneg hr0, heq]
    exact ⟨le_refl _, fun _ => h3⟩
  · -- the half, quotient odd
    have heq : ((n % d : Nat) : ℚ) / d = 1 / 2 := by
      rw [div_eq_iff (ne_of_gt hdq)]
      have : 2 * (n % d) = d := by omega
      have : ((2 * (n % d) : Nat) : ℚ) = d := by exact_mod_cast this
      push_cast at this
      linarith
    rw [hsplit]
    have e : (((n / d + 1 : Nat) : ℚ)) - (((n / d : Nat) : ℚ) + ((n % d : Nat) : ℚ) / d)
        = 1 - ((n % d : Nat) : ℚ) / d := by push_cast; ring
    have habs : |(1 : ℚ) - 1 / 2| = 1 / 2 := by
      rw [abs_of_pos] <;> norm_num
    rw [e, heq, habs]
    exact ⟨le_refl _, fun _ => by omega⟩

/-- The rounding `binary64` is IEEE-754 round-to-nearest-even onto the doubles: for `q ≠ 0`
the result has the sign of `q` and magnitude `m / 2^s`, where the scale `s ≤ 1074` brings
`|q|` into `[2^52, 2^53)`, or is `1074` for a `|q|` below `2^-1022`, and `m` is the integer
nearest to `|q| * 2^s`, the even one of the two at a tie. -/
theorem binary64_spec (q : ℚ) (hq : q ≠ 0) :
    ∃ (m : Nat) (s : ℤ),
      |binary64 q| = (m : ℚ) / (2 : ℚ) ^ s ∧
      (0 < q → 0 ≤ binary64 q) ∧ (q < 0 → binary64 q ≤ 0) ∧
      s ≤ 1074 ∧ |q| * (2 : ℚ) ^ s < 2 ^ 53 ∧ (s < 1074 → (2 : ℚ) ^ 52 ≤ |q| * (2 : ℚ) ^ s) ∧
      |(m : ℚ) - |q| * (2 : ℚ) ^ s| ≤ 1 / 2 ∧
      (|(m : ℚ) - |q| * (2 : ℚ) ^ s| = 1 / 2 → m % 2 = 0) := by
  have hnum : q.num ≠ 0 := Rat.num_ne_zero.mpr hq
  have hn : 0 < q.num.natAbs := Int.natAbs_pos.mpr hnum
  have hd : 0 < q.den := q.den_pos
  have hdq : (0 : ℚ) < q.den := by exact_mod_cast hd
  have habs : |q| = (q.num.natAbs : ℚ) / q.den := by
    conv_lhs => rw [← Rat.num_div_den q]
    rw [abs_div, abs_of_pos hdq]
    congr 1
    rw [Nat.cast_natAbs, Int.cast_abs]
  obtain ⟨hlo, hhi⟩ := floorLog2_spec q.num.natAbs q.den hn hd
  rw [← habs] at hlo hhi
  have two_pos : ∀ z : ℤ, (0 : ℚ) < 2 ^ z := fun z => zpow_pos (by norm_num) z
  have two_ne : (2 : ℚ) ≠ 0 := by norm_num
  -- the scale and the rounded scaled magnitude
  obtain ⟨s, hs⟩ : ∃ s : ℤ, s = 52 - max (floorLog2 q.num.natAbs q.den) (-1022) := ⟨_, rfl⟩
  have hs1 : s ≤ 1074 := by
    have := le_max_right (floorLog2 q.num.natAbs q.den) (-1022)
    omega
  have hs2 : s ≤ 52 - floorLog2 q.num.natAbs q.den := by
    have := le_max_left (floorLog2 q.num.natAbs q.den) (-1022)
    omega
  have hs3 : s < 1074 → s = 52 - floorLog2 q.num.natAbs q.den := by
    intro h
    rcases max_choice (floorLog2 q.num.natAbs q.den) (-1022) with hm | hm
    · rw [hm] at hs; exact hs
    · rw [hm] at hs; omega
  have hup : |q| * (2 : ℚ) ^ s < 2 ^ 53 := by
    have h1 : |q| * (2 : ℚ) ^ s < (2 : ℚ) ^ (floorLog2 q.num.natAbs q.den + 1) * (2 : ℚ) ^ s :=
      mul_lt_mul_of_pos_right hhi (two_pos s)
    rw [← zpow_add₀ two_ne] at h1
    have h2 : (2 : ℚ) ^ (floorLog2 q.num.natAbs q.den + 1 + s) ≤ (2 : ℚ) ^ (53 : ℤ) :=
      zpow_le_zpow_right₀ (by norm_num) (by omega)
    have h3 : (2 : ℚ) ^ (53 : ℤ) = 2 ^ 53 := by norm_cast
    linarith
  have hdown : s < 1074 → (2 : ℚ) ^ 52 ≤ |q| * (2 : ℚ) ^ s := by
    intro h
    have h1 : (2 : ℚ) ^ floorLog2 q.num.natAbs q.den * (2 : ℚ) ^ s ≤ |q| * (2 : ℚ) ^ s :=
      mul_le_mul_of_nonneg_right hlo (le_of_lt (two_pos s))
    rw [← zpow_add₀ two_ne, hs3 h] at h1
    have h2 : floorLog2 q.num.natAbs q.den + (52 - floorLog2 q.num.natAbs q.den) = 52 := by ring
    rw [h2] at h1
    have h3 : (2 : ℚ) ^ (52 : ℤ) = 2 ^ 52 := by norm_cast
    rw [hs3 h]
    linarith
  -- the magnitude that the definition computes
  have hmag : ∃ m : Nat,
      (if 0 ≤ s then (roundHalfEven (q.num.natAbs * 2 ^ s.toNat) q.den : ℚ) / 2 ^ s.toNat
        else (roundHalfEven q.num.natAbs (q.den * 2 ^ (-s).toNat) : ℚ) * 2 ^ (-s).toNat)
        = (m : ℚ) / (2 : ℚ) ^ s ∧
      |(m : ℚ) - |q| * (2 : ℚ) ^ s| ≤ 1 / 2 ∧
      (|(m : ℚ) - |q| * (2 : ℚ) ^ s| = 1 / 2 → m % 2 = 0) := by
    by_cases h0 : 0 ≤ s
    · have e1 : (2 : ℚ) ^ s = (2 : ℚ) ^ s.toNat := by
        rw [← zpow_natCast, Int.toNat_of_nonneg h0]
      have e2 : |q| * (2 : ℚ) ^ s = ((q.num.natAbs * 2 ^ s.toNat : Nat) : ℚ) / q.den := by
        rw [habs, e1]; push_cast; ring
      refine ⟨roundHalfEven (q.num.natAbs * 2 ^ s.toNat) q.den, ?_, ?_⟩
      · rw [if_pos h0, e1]
      · rw [e2]
        exact roundHalfEven_spec _ _ hd
    · have hneg : 0 ≤ -s := by omega
      have e1 : (2 : ℚ) ^ s = 1 / (2 : ℚ) ^ (-s).toNat := by
        rw [← zpow_natCast, Int.toNat_of_nonneg hneg, zpow_neg, one_div, inv_inv]
      have hp : (0 : ℚ) < (2 : ℚ) ^ (-s).toNat := by positivity
      have e2 : |q| * (2 : ℚ) ^ s
          = (q.num.natAbs : ℚ) / ((q.den * 2 ^ (-s).toNat : Nat) : ℚ) := by
        rw [habs, e1]; push_cast; field_simp
      refine ⟨roundHalfEven q.num.natAbs (q.den * 2 ^ (-s).toNat), ?_, ?_⟩
      · rw [if_neg h0, e1]
        field_simp
      · rw [e2]
        exact roundHalfEven_spec _ _ (Nat.mul_pos hd (Nat.pos_pow_of_pos _ (by norm_num)))
  obtain ⟨m, hm1, hm2, hm3⟩ := hmag
  have hmnn : (0 : ℚ) ≤ (m : ℚ) / (2 : ℚ) ^ s := div_nonneg (by positivity) (le_of_lt (two_pos s))
  have hval : binary64 q = if q < 0 then -((m : ℚ) / (2 : ℚ) ^ s) else (m : ℚ) / (2 : ℚ) ^ s := by
    unfold binary64
    rw [if_neg hq]
    simp only
    rw [← hs, hm1]
  refine ⟨m, s, ?_, ?_, ?_, hs1, hup, hdown, hm2, hm3⟩
  · rw [hval]
    split_ifs
    · rw [abs_neg, abs_of_nonneg hmnn]
    · rw [abs_of_nonneg hmnn]
  · intro hpos
    rw [hval, if_neg (not_lt.mpr (le_of_lt hpos))]
    exact hmnn
  · intro hneg
    rw [hval, if_pos hneg]
    linarith

/-! ## Budget analysis: validation and health tier -/

theorem foldl_pushExpense (rows : List ExpenseRow) (acc : List Expense) :
    rows.foldl pushExpense acc
      = acc ++ (rows.filter fun r => decide (0 < orZero r.amt)).map
          fun r => ({ category := cleanCat r.cat, amount := orZero r.amt } : Expense) := by
  induction rows generalizing acc with
  | nil => simp
  | cons r rest ih =>
    rw [List.foldl_cons, ih]
    by_cases h : 0 < orZero r.amt
    · simp [pushExpense, h, List.filter_cons]
    · simp [pushExpense, h, List.filter_cons]

theorem orZero_pos_iff (x : Option ℚ) : 0 < orZero x ↔ ∃ a, x = some a ∧ 0 < a := by
  cases x with
  | none => simp [orZero]
  | some q => simp [orZero]

/-- C1: for a response whose `savings_percent` is the number `p`, `showBudgetResult` sets the
badge class to exactly one of three values: `health-good` exactly when `p ≥ 20`, `health-warn`
exactly when `5 ≤ p < 20`, `health-danger` exactly when `p < 5`; so `20` is good, `19.999` and
`5` are warning and `4.999` is critical. -/
theorem C1_health_tier (fl : ℚ → ℚ) (v : BudgetView) (income : ℚ) (expenses : List Expense)
    (data : BudgetData) (p : ℚ) :
    let badge := fun (x : ℚ) =>
      (showBudgetResult fl v income expenses { data with savings_percent := some x }).1.badgeClass
    (badge p = "health-badge health-good" ↔ 20 ≤ p) ∧
    (badge p = "health-badge health-warn" ↔ 5 ≤ p ∧ p < 20) ∧
    (badge p = "health-badge health-danger" ↔ p < 5) ∧
    badge 20 = "health-badge health-good" ∧
    badge (19999 / 1000) = "health-badge health-warn" ∧
    badge 5 = "health-badge health-warn" ∧
    badge (4999 / 1000) = "health-badge health-danger" := by
  have key : ∀ x : ℚ,
      (showBudgetResult fl v income expenses
        { data with savings_percent := some x }).1.badgeClass
        = if 20 ≤ x then "health-badge health-good"
          else if 5 ≤ x then "health-badge health-warn" else "health-badge health-danger" := by
    intro x
    unfold showBudgetResult
    cases data.total_expenses <;> simp only [orZero, ge_iff_le] <;> split_ifs <;> rfl
  intro badge
  have hb : ∀ x, badge x = if 20 ≤ x then "health-badge health-good"
      else if 5 ≤ x then "health-badge health-warn" else "health-badge health-danger" := key
  refine ⟨?_, ?_, ?_, ?_, ?_, ?_, ?_⟩
  · rw [hb]; split_ifs with h1 h2 <;> simp [h1]
  · rw [hb]; split_ifs with h1 h2
    · simp; intro _; linarith
    · simp [h2]; linarith
    · simp; intro h; exact absurd h h2
  · rw [hb]; split_ifs with h1 h2
    · simp; linarith
    · simp; linarith
    · simp; linarith
  · rw [hb]; norm_num
  · rw [hb]; norm_num
  · rw [hb]; norm_num
  · rw [hb]; norm_num

/-- C2 (as the code has it): `analyzeBudget` shows the income prompt and sends nothing exactly
when the parsed income is `0` or `NaN` (a zero, empty or non-numeric field); whenever a request
is sent its income is the parsed income and is not zero. -/
theorem C2_income_check (fl : ℚ → ℚ) (v : BudgetView) (incomeField : Option ℚ)
    (rows : List ExpenseRow) (response : Option BudgetData) :
    (analyzeBudgetStart incomeField rows = BudgetStart.alert "Please enter your monthly income."
      ↔ (incomeField = none ∨ incomeField = some 0)) ∧
    ((incomeField = none ∨ incomeField = some 0) →
      (analyzeBudget fl v incomeField rows response).sent = none ∧
      (analyzeBudget fl v incomeField rows response).alert
        = some "Please enter your monthly income." ∧
      (analyzeBudget fl v incomeField rows response).view = v) ∧
    (∀ req, (analyzeBudget fl v incomeField rows response).sent = some req →
      incomeField = some req.income ∧ req.income ≠ 0) := by
  have hz : orZero incomeField = 0 ↔ (incomeField = none ∨ incomeField = some 0) := by
    cases incomeField with
    | none => simp [orZero]
    | some q => simp [orZero]
  refine ⟨?_, ?_, ?_⟩
  · unfold analyzeBudgetStart
    rw [← hz]
    by_cases h : orZero incomeField = 0
    · simp [h]
    · simp only [h, if_false, false_iff]
      split_ifs <;> simp
  · intro h
    have h0 := hz.mpr h
    simp [analyzeBudget, analyzeBudgetStart, h0]
  · intro req hreq
    have hsent : (analyzeBudget fl v incomeField rows response).sent
        = match analyzeBudgetStart incomeField rows with
          | BudgetStart.alert _ => none
          | BudgetStart.request r => some r := by
      unfold analyzeBudget
      cases analyzeBudgetStart incomeField rows with
      | alert msg => rfl
      | request r => cases response <;> rfl
    rw [hsent] at hreq
    unfold analyzeBudgetStart at hreq
    by_cases h : orZero incomeField = 0
    · simp [h] at hreq
    · simp only [h, if_false] at hreq
      split_ifs at hreq
      cases hreq
      cases incomeField with
      | none => exact absurd rfl h
      | some q => exact ⟨rfl, h⟩

/-- C2 at a concrete form: an empty income field with the five sample rows; nothing is sent
and the page is left as it was. -/
theorem C2_income_check_witness :
    (analyzeBudget binary64 sampleView none sampleRows none).sent = none ∧
    (analyzeBudget binary64 sampleView none sampleRows none).alert
      = some "Please enter your monthly income." ∧
    (analyzeBudget binary64 sampleView none sampleRows none).view = sampleView :=
  (C2_income_check binary64 sampleView none sampleRows none).2.1 (Or.inl rfl)

/-- C2, the claim as stated fails: with the income `-5` and one row of amount `100` the income
check passes and the request is sent, with an income that is not positive. -/
theorem C2_negative_income_is_sent :
    analyzeBudgetStart (some (-5)) [{ cat := "Other", amt := some 100 }]
      = BudgetStart.request { income := -5, expenses := [{ category := "Other", amount := 100 }] }
    ∧ ¬ ((0 : ℚ) < -5) := by
  decide!

/-- C3: when the income check passes, `analyzeBudget` sends a request exactly when some row
has a parsed amount above zero; the request carries the parsed income and, in their
original order, the rows whose parsed amount is above zero, each as its cleaned category and
its amount; rows with a zero, negative or `NaN` amount are left out.  With the income `5000`,
no row, or only a row of amount `0`, ends in the expense prompt. -/
theorem C3_submitted_expenses (incomeField : Option ℚ) (rows : List ExpenseRow)
    (hincome : orZero incomeField ≠ 0) :
    ((∃ req, analyzeBudgetStart incomeField rows = BudgetStart.request req)
      ↔ ∃ r ∈ rows, ∃ a, r.amt = some a ∧ 0 < a) ∧
    (∀ req, analyzeBudgetStart incomeField rows = BudgetStart.request req →
      req.income = orZero incomeField ∧
      req.expenses = (rows.filter fun r => decide (0 < orZero r.amt)).map
        fun r => ({ category := cleanCat r.cat, amount := orZero r.amt } : Expense)) ∧
    ((¬ ∃ r ∈ rows, ∃ a, r.amt = some a ∧ 0 < a) →
      analyzeBudgetStart incomeField rows = BudgetStart.alert "Please add at least one expense.") ∧
    analyzeBudgetStart (some 5000) [] = BudgetStart.alert "Please add at least one expense." ∧
    analyzeBudgetStart (some 5000) [{ cat := "Food", amt := some 0 }]
      = BudgetStart.alert "Please add at least one expense." := by
  have hstart : analyzeBudgetStart incomeField rows
      = if ((rows.filter fun r => decide (0 < orZero r.amt)).map
          fun r => ({ category := cleanCat r.cat, amount := orZero r.amt } : Expense)).length = 0
        then BudgetStart.alert "Please add at least one expense."
        else BudgetStart.request
          { income := orZero incomeField,
            expenses := (rows.filter fun r => decide (0 < orZero r.amt)).map
              fun r => ({ category := cleanCat r.cat, amount := orZero r.amt } : Expense) } := by
    unfold analyzeBudgetStart
    simp only [hincome, if_false, foldl_pushExpense, List.nil_append]
  have hlen : ((rows.filter fun r => decide (0 < orZero r.amt)).map
          fun r => ({ category := cleanCat r.cat, amount := orZero r.amt } : Expense)).length = 0
      ↔ ¬ ∃ r ∈ rows, ∃ a, r.amt = some a ∧ 0 < a := by
    rw [List.length_map, List.length_eq_zero, List.filter_eq_nil_iff]
    constructor
    · rintro h ⟨r, hr, hpos⟩
      exact h r hr (by simpa using (orZero_pos_iff r.amt).mpr hpos)
    · intro h r hr hpos
      exact h ⟨r, hr, (orZero_pos_iff r.amt).mp (by simpa using hpos)⟩
  refine ⟨?_, ?_, ?_, by decide!, by decide!⟩
  · rw [hstart]
    constructor
    · rintro ⟨req, hreq⟩
      by_contra hno
      rw [if_pos (hlen.mpr hno)] at hreq
      cases hreq
    · intro hex
      rw [if_neg (fun hc => hlen.mp hc hex)]
      exact ⟨_, rfl⟩
  · intro req hreq
    rw [hstart] at hreq
    split_ifs at hreq
    cases hreq
    exact ⟨rfl, rfl⟩
  · intro hno
    rw [hstart, if_pos (hlen.mpr hno)]

/-- C3 at a concrete form: the income `5000` and five rows with the amounts `-3`, `1200`,
empty, `0` and `80.5`; the second and the fifth are submitted. -/
theorem C3_submitted_expenses_witness :
    orZero (some 5000) ≠ 0 ∧
    ∀ req, analyzeBudgetStart (some 5000) sampleRows = BudgetStart.request req →
      req.income = orZero (some 5000) ∧
      req.expenses = (sampleRows.filter fun r => decide (0 < orZero r.amt)).map
        fun r => ({ category := cleanCat r.cat, amount := orZero r.amt } : Expense) :=
  ⟨by decide!, (C3_submitted_expenses (some 5000) sampleRows (by decide!)).2.1⟩

/-! ## Chat turn -/

theorem string_mk_eq_empty (l : List Char) : (String.mk l = "") ↔ l = [] := by
  constructor
  · intro h
    have := congrArg String.data h
    simpa using this
  · intro h
    subst h
    rfl

theorem sendMessageStart_of_nonempty (now : Nat) (s : ChatState)
    (hm : jsTrim s.chatInput.data ≠ []) :
    sendMessageStart now s
      = ({ chatHistory := s.chatHistory ++ [⟨"user", ⟨jsTrim s.chatInput.data⟩⟩],
           chatMessages :=
             (showTyping now (appendMessage "user" ⟨jsTrim s.chatInput.data⟩ s.chatMessages)).1,
           chatInput := "", sendBtnDisabled := true },
         some ((showTyping now
                 (appendMessage "user" ⟨jsTrim s.chatInput.data⟩ s.chatMessages)).2,
               { message := ⟨jsTrim s.chatInput.data⟩, history := s.chatHistory })) := by
  unfold sendMessageStart
  have hne : ¬ ((String.mk (jsTrim s.chatInput.data)) = "") := by
    rw [string_mk_eq_empty]; exact hm
  simp only [hne, if_false, List.dropLast_concat]

theorem sendMessageFinish_history_success (s : ChatState) (typingId r : String) :
    (sendMessageFinish s typingId (ChatOutcome.data (some "success") (some r))).chatHistory
      = s.chatHistory ++ [⟨"assistant", r⟩] := rfl

theorem sendMessageFinish_history_other (s : ChatState) (typingId : String)
    (outcome : ChatOutcome)
    (h : ∀ r, outcome ≠ ChatOutcome.data (some "success") (some r)) :
    (sendMessageFinish s typingId outcome).chatHistory = s.chatHistory := by
  cases outcome with
  | error => rfl
  | data status response =>
    unfold sendMessageFinish
    by_cases hs : status = some "success"
    · subst hs
      cases response with
      | none => rfl
      | some r => exact absurd rfl (h r)
    · simp only [hs, if_false]

theorem failed_ne_success (outcome : ChatOutcome)
    (hf : outcome = ChatOutcome.error ∨
      ∃ status response, outcome = ChatOutcome.data status response ∧ status ≠ some "success")
    (r : String) : outcome ≠ ChatOutcome.data (some "success") (some r) := by
  rintro rfl
  rcases hf with hf | ⟨status, response, hf, hne⟩
  · cases hf
  · cases hf
    exact hne rfl

/-- C4: in a chat turn with non-empty trimmed text `m` and prior history `H`, the request is
sent with history `H` after the single entry `user: m` was pushed; if the call fails (an
exception, or a response whose status is not `"success"`) the history after the turn is `H`
followed by that one entry, and in every case it is either that or, on a `"success"`
response with text `r`, that followed by the one entry `assistant: r`.  The part of the
handler that runs after the response leaves the history it finds unchanged on failure. -/
theorem C4_failure_keeps_history (now : Nat) (s : ChatState) (outcome : ChatOutcome)
    (hm : jsTrim s.chatInput.data ≠ []) :
    let m : String := ⟨jsTrim s.chatInput.data⟩
    let failed := outcome = ChatOutcome.error ∨
      ∃ status response, outcome = ChatOutcome.data status response ∧ status ≠ some "success"
    (sendMessageStart now s).1.chatHistory = s.chatHistory ++ [⟨"user", m⟩] ∧
    (∃ typingId, (sendMessageStart now s).2
        = some (typingId, { message := m, history := s.chatHistory })) ∧
    (failed → (sendMessage now s outcome).chatHistory = s.chatHistory ++ [⟨"user", m⟩]) ∧
    ((sendMessage now s outcome).chatHistory = s.chatHistory ++ [⟨"user", m⟩] ∨
      ∃ r, outcome = ChatOutcome.data (some "success") (some r) ∧
        (sendMessage now s outcome).chatHistory
          = s.chatHistory ++ [⟨"user", m⟩, ⟨"assistant", r⟩]) ∧
    (failed → ∀ (s1 : ChatState) (typingId : String),
      (sendMessageFinish s1 typingId outcome).chatHistory = s1.chatHistory) := by
  intro m failed
  have hstart := sendMessageStart_of_nonempty now s hm
  have hturn : (sendMessage now s outcome).chatHistory
      = (sendMessageFinish (sendMessageStart now s).1
          (showTyping now (appendMessage "user" m s.chatMessages)).2 outcome).chatHistory := by
    unfold sendMessage
    rw [hstart]
  have hsent : (sendMessageStart now s).1.chatHistory = s.chatHistory ++ [⟨"user", m⟩] := by
    rw [hstart]
  refine ⟨hsent, ⟨_, by rw [hstart]⟩, ?_, ?_, ?_⟩
  · intro hf
    rw [hturn, sendMessageFinish_history_other _ _ _ (failed_ne_success outcome hf), hsent]
  · by_cases hs : ∃ r, outcome = ChatOutcome.data (some "success") (some r)
    · obtain ⟨r, hr⟩ := hs
      right
      refine ⟨r, hr, ?_⟩
      rw [hturn, hr, sendMessageFinish_history_success, hsent]
      simp
    · left
      rw [hturn, sendMessageFinish_history_other _ _ _ (fun r hr => hs ⟨r, hr⟩), hsent]
  · intro hf s1 typingId
    exact sendMessageFinish_history_other _ _ _ (failed_ne_success outcome hf)

/-- C4 at a concrete turn: the text ` hi ` after one earlier exchange, answered with the
status `"error"`. -/
theorem C4_failure_keeps_history_witness :
    jsTrim sampleChat.chatInput.data ≠ [] ∧
    (sendMessage 1700000000000 sampleChat (ChatOutcome.data (some "error") (some "quota"))).chatHistory
      = sampleChat.chatHistory ++ [⟨"user", ⟨jsTrim sampleChat.chatInput.data⟩⟩] :=
  ⟨by decide,
   (C4_failure_keeps_history 1700000000000 sampleChat
      (ChatOutcome.data (some "error") (some "quota")) (by decide)).2.2.1
      (Or.inr ⟨some "error", some "quota", rfl, by decide⟩)⟩

/-- C10 (as the code has it): each kind of failure appends one fixed notice to the
transcript, whatever the response said: a response whose status is not `"success"` gets the
notice of line 50, an exception gets the notice of line 54, after the typing placeholder is
removed; the two notices are different texts. -/
theorem C10_fixed_notice_per_failure (s : ChatState) (typingId : String)
    (status response : Option String) (hstatus : status ≠ some "success") :
    (sendMessageFinish s typingId (ChatOutcome.data status response)).chatMessages
      = removeTyping typingId s.chatMessages ++
          [ChatNode.message "message bot-message animate-in" "msg-avatar bot-avatar" "PS"
            (formatMarkdown "⚠️ Something went wrong. Please try again.")] ∧
    (sendMessageFinish s typingId ChatOutcome.error).chatMessages
      = removeTyping typingId s.chatMessages ++
          [ChatNode.message "message bot-message animate-in" "msg-avatar bot-avatar" "PS"
            (formatMarkdown "⚠️ Connection error. Please check your server.")] ∧
    formatMarkdown "⚠️ Something went wrong. Please try again."
      ≠ formatMarkdown "⚠️ Connection error. Please check your server." := by
  refine ⟨?_, ?_, by decide⟩
  · unfold sendMessageFinish
    simp only [hstatus, if_false]
    rfl
  · rfl

/-- C10 at a concrete state: a transcript with a typing placeholder, answered with the status
`"error"`. -/
theorem C10_fixed_notice_per_failure_witness :
    (some "error" : Option String) ≠ some "success" ∧
    (sendMessageFinish (sendMessageStart 1700000000000 sampleChat).1 "typing-1700000000000"
        (ChatOutcome.data (some "error") none)).chatMessages
      = removeTyping "typing-1700000000000" (sendMessageStart 1700000000000 sampleChat).1.chatMessages ++
          [ChatNode.message "message bot-message animate-in" "msg-avatar bot-avatar" "PS"
            (formatMarkdown "⚠️ Something went wrong. Please try again.")] :=
  ⟨by decide,
   (C10_fixed_notice_per_failure (sendMessageStart 1700000000000 sampleChat).1
      "typing-1700000000000" (some "error") none (by decide)).1⟩

/-- C10, the claim as stated fails: after the same turn, a response with the status `"error"`
and an exception leave different transcripts, because their notices differ. -/
theorem C10_notices_differ :
    (sendMessage 1700000000000 sampleChat (ChatOutcome.data (some "error") none)).chatMessages
      ≠ (sendMessage 1700000000000 sampleChat ChatOutcome.error).chatMessages ∧
    (sendMessage 1700000000000 sampleChat (ChatOutcome.data (some "error") none)).chatMessages.getLast?
      = some (ChatNode.message "message bot-message animate-in" "msg-avatar bot-avatar" "PS"
          "<p>⚠️ Something went wrong. Please try again.</p>") ∧
    (sendMessage 1700000000000 sampleChat ChatOutcome.error).chatMessages.getLast?
      = some (ChatNode.message "message bot-message animate-in" "msg-avatar bot-avatar" "PS"
          "<p>⚠️ Connection error. Please check your server.</p>") := by
  decide

/-! ## Markdown formatter -/

theorem replaceDelimGo_skip (d pre post : List Char) (xs ys : List Char) :
    replaceDelimGo d pre post xs.length (xs ++ ys) = replaceDelimGo d pre post 0 ys := by
  induction xs with
  | nil => simp
  | cons x xs ih =>
    cases hy : xs ++ ys with
    | nil =>
      have h1 : xs = [] := (List.append_eq_nil.mp hy).1
      have h2 : ys = [] := (List.append_eq_nil.mp hy).2
      subst h1 h2
      simp [replaceDelimGo]
    | cons z zs =>
      rw [List.cons_append, List.length_cons, replaceDelimGo, ih]

theorem isPrefixOf_cons_of_ne (x c : Char) (d cs : List Char) (h : c ≠ x) :
    (x :: d).isPrefixOf (c :: cs) = false := by
  simp [List.isPrefixOf, Ne.symm h]

theorem replaceDelimGo_copy (x : Char) (d pre post : List Char) (p s : List Char)
    (hp : ∀ c ∈ p, c ≠ x) :
    replaceDelimGo (x :: d) pre post 0 (p ++ s) = p ++ replaceDelimGo (x :: d) pre post 0 s := by
  induction p with
  | nil => rfl
  | cons c p ih =>
    have hc : c ≠ x := hp c (List.mem_cons_self _ _)
    rw [List.cons_append, replaceDelimGo, isPrefixOf_cons_of_ne x c d _ hc]
    simp only [Bool.false_eq_true, if_false, List.cons_append, List.cons.injEq, true_and]
    exact ih fun c hc => hp c (List.mem_cons_of_mem _ hc)

theorem lazyUntil_hit (x : Char) (d a rest : List Char)
    (hx : ∀ c ∈ a, c ≠ x) (hl : ∀ c ∈ a, isLineTerminator c = false) :
    lazyUntil (x :: d) (a ++ (x :: d) ++ rest) = some (a, rest) := by
  induction a with
  | nil =>
    show lazyUntil (x :: d) (x :: (d ++ rest)) = some ([], rest)
    have h : (x :: d).isPrefixOf (x :: (d ++ rest)) = true := by
      rw [List.isPrefixOf_iff_prefix]
      exact ⟨rest, rfl⟩
    have hd : (x :: (d ++ rest)).drop (x :: d).length = rest := by
      show ((x :: d) ++ rest).drop (x :: d).length = rest
      rw [List.drop_left]
    rw [lazyUntil, h, hd]
    rfl
  | cons c a ih =>
    have hc : c ≠ x := hx c (List.mem_cons_self _ _)
    have hlc : isLineTerminator c = false := hl c (List.mem_cons_self _ _)
    rw [List.cons_append, List.cons_append, lazyUntil, isPrefixOf_cons_of_ne x c d _ hc]
    simp only [Bool.false_eq_true, if_false, hlc]
    rw [ih (fun c hc => hx c (List.mem_cons_of_mem _ hc))
      (fun c hc => hl c (List.mem_cons_of_mem _ hc))]
    rfl

theorem lazyUntil_some (d : List Char) (u g r : List Char)
    (h : lazyUntil d u = some (g, r)) : u = g ++ d ++ r := by
  induction u generalizing g with
  | nil => simp [lazyUntil] at h
  | cons c cs ih =>
    rw [lazyUntil] at h
    split_ifs at h with h1 h2
    · simp only [Option.some.injEq, Prod.mk.injEq] at h
      obtain ⟨hg, hr⟩ := h
      rw [List.isPrefixOf_iff_prefix] at h1
      obtain ⟨t, ht⟩ := h1
      rw [← ht] at hr
      rw [← ht, ← hg, ← hr]
      simp
    · cases hrec : lazyUntil d cs with
      | none => simp [hrec] at h
      | some gr =>
        obtain ⟨g1, r1⟩ := gr
        simp only [hrec, Option.map_some', Option.some.injEq, Prod.mk.injEq] at h
        obtain ⟨hg, hr⟩ := h
        rw [ih g1 (by rw [hrec, hr]), ← hg]
        simp

theorem lazyUntil_none_of_count (x : Char) (d u : List Char)
    (h : u.count x < d.count x) : lazyUntil d u = none := by
  cases hrec : lazyUntil d u with
  | none => rfl
  | some gr =>
    obtain ⟨g, r⟩ := gr
    have := lazyUntil_some d u g r hrec
    rw [this] at h
    simp only [List.count_append] at h
    omega

theorem replaceDelimGo_none (x : Char) (d pre post : List Char) (s : List Char)
    (h : s.count x < 2 * (x :: d).count x) :
    replaceDelimGo (x :: d) pre post 0 s = s := by
  induction s with
  | nil => rfl
  | cons c cs ih =>
    have hcs : cs.count x < 2 * (x :: d).count x := by
      have := List.count_le_count_cons (a := x) (b := c) (l := cs)
      omega
    rw [replaceDelimGo]
    split_ifs with hp
    · rw [List.isPrefixOf_iff_prefix] at hp
      obtain ⟨t, ht⟩ := hp
      have hnone : lazyUntil (x :: d) ((c :: cs).drop (x :: d).length) = none := by
        apply lazyUntil_none_of_count x
        rw [← ht, List.drop_left]
        rw [← ht, List.count_append] at h
        omega
      rw [hnone]
      simp only
      rw [ih hcs]
    · rw [ih hcs]

theorem replaceDelimGo_hit (x : Char) (d pre post a rest : List Char)
    (hx : ∀ c ∈ a, c ≠ x) (hl : ∀ c ∈ a, isLineTerminator c = false) :
    replaceDelimGo (x :: d) pre post 0 ((x :: d) ++ a ++ (x :: d) ++ rest)
      = pre ++ a ++ post ++ replaceDelimGo (x :: d) pre post 0 rest := by
  have hlist : (x :: d) ++ a ++ (x :: d) ++ rest = x :: (d ++ a ++ (x :: d) ++ rest) := by simp
  rw [hlist, replaceDelimGo]
  have hp : (x :: d).isPrefixOf (x :: (d ++ a ++ (x :: d) ++ rest)) = true := by
    rw [List.isPrefixOf_iff_prefix]
    exact ⟨a ++ (x :: d) ++ rest, by simp⟩
  have hdrop : (x :: (d ++ a ++ (x :: d) ++ rest)).drop (x :: d).length
      = a ++ (x :: d) ++ rest := by
    have : x :: (d ++ a ++ (x :: d) ++ rest) = (x :: d) ++ (a ++ (x :: d) ++ rest) := by simp
    rw [this, List.drop_left]
  rw [hp, hdrop, lazyUntil_hit x d a rest hx hl]
  simp only [if_true]
  have hlen : 2 * (x :: d).length + a.length - 1 = (d ++ a ++ (x :: d)).length := by
    simp only [List.length_cons, List.length_append]
    omega
  rw [hlen, replaceDelimGo_skip]

theorem specBreaks_nn (rest : List Char) :
    specBreaks ('\n' :: '\n' :: rest) = "</p><p>".data ++ specBreaks rest := by
  rw [specBreaks]

theorem specBreaks_n_nil : specBreaks ['\n'] = "<br>".data := by
  rw [specBreaks]
  · rfl
  · intro rest h; cases h

theorem specBreaks_n (c : Char) (rest : List Char) (hc : c ≠ '\n') :
    specBreaks ('\n' :: c :: rest) = "<br>".data ++ specBreaks (c :: rest) := by
  rw [specBreaks]
  intro rest2 h
  simp_all

theorem specBreaks_other (c : Char) (rest : List Char) (hc : c ≠ '\n') :
    specBreaks (c :: rest) = c :: specBreaks rest := by
  rw [specBreaks]
  · intro h
    simp_all
  · intro h
    simp_all

theorem headingAt_none_of_ne (c : Char) (cs : List Char) (hc : c ≠ '#') :
    headingAt (c :: cs) = none := by
  have h : ('#' == c) = false := by simpa using Ne.symm hc
  simp [headingAt, List.findSome?, List.replicate, List.isPrefixOf, h]

theorem replaceHeadingsGo_of_no_terminator (pre post s : List Char)
    (hl : ∀ c ∈ s, isLineTerminator c = false) :
    replaceHeadingsGo pre post false 0 s = s := by
  induction s with
  | nil => rfl
  | cons c cs ih =>
    rw [replaceHeadingsGo]
    simp only [Bool.false_eq_true, if_false, hl c (List.mem_cons_self _ _)]
    rw [ih fun c hc => hl c (List.mem_cons_of_mem _ hc)]

theorem replaceHeadingsGo_of_no_hash (pre post s : List Char) (lineStart : Bool)
    (hs : ∀ c ∈ s, c ≠ '#') :
    replaceHeadingsGo pre post lineStart 0 s = s := by
  induction s generalizing lineStart with
  | nil => rfl
  | cons c cs ih =>
    rw [replaceHeadingsGo, headingAt_none_of_ne c cs (hs c (List.mem_cons_self _ _))]
    simp only [ite_self]
    rw [ih _ fun c hc => hs c (List.mem_cons_of_mem _ hc)]

theorem replaceHeadingsGo_of_line (pre post : List Char) (c : Char) (cs : List Char)
    (hc : c ≠ '#') (hl : ∀ x ∈ c :: cs, isLineTerminator x = false) :
    replaceHeadingsGo pre post true 0 (c :: cs) = c :: cs := by
  rw [replaceHeadingsGo, headingAt_none_of_ne c cs hc]
  simp only [if_true, hl c (List.mem_cons_self _ _)]
  rw [replaceHeadingsGo_of_no_terminator pre post cs fun x hx => hl x (List.mem_cons_of_mem _ hx)]

theorem replaceLitGo_copy (x : Char) (pat rep p s : List Char) (hp : ∀ c ∈ p, c ≠ x) :
    replaceLitGo (x :: pat) rep 0 (p ++ s) = p ++ replaceLitGo (x :: pat) rep 0 s := by
  induction p with
  | nil => rfl
  | cons c p ih =>
    have hc : c ≠ x := hp c (List.mem_cons_self _ _)
    rw [List.cons_append, replaceLitGo, isPrefixOf_cons_of_ne x c pat _ hc]
    simp only [Bool.false_eq_true, if_false, List.cons_append, List.cons.injEq, true_and]
    exact ih fun c hc => hp c (List.mem_cons_of_mem _ hc)

theorem replaceLitGo_of_not_mem (x : Char) (pat rep s : List Char) (hs : ∀ c ∈ s, c ≠ x) :
    replaceLitGo (x :: pat) rep 0 s = s := by
  have h := replaceLitGo_copy x pat rep s [] hs
  simpa [replaceLitGo] using h

theorem breaks_pass1_nn (rep rest : List Char) :
    replaceLitGo ['\n', '\n'] rep 0 ('\n' :: '\n' :: rest)
      = rep ++ replaceLitGo ['\n', '\n'] rep 0 rest := by
  rw [replaceLitGo]
  have hp : ['\n', '\n'].isPrefixOf ('\n' :: '\n' :: rest) = true := by
    simp [List.isPrefixOf]
  rw [hp]
  simp only [if_true, List.length_cons, List.length_nil]
  cases rest with
  | nil => simp [replaceLitGo]
  | cons r rs => rw [show 0 + 1 + 1 - 1 = 0 + 1 from rfl, replaceLitGo]

theorem breaks_pass1_n (rep : List Char) (c : Char) (rest : List Char) (hc : c ≠ '\n') :
    replaceLitGo ['\n', '\n'] rep 0 ('\n' :: c :: rest)
      = '\n' :: replaceLitGo ['\n', '\n'] rep 0 (c :: rest) := by
  rw [replaceLitGo]
  have hp : ['\n', '\n'].isPrefixOf ('\n' :: c :: rest) = false := by
    have : ('\n' == c) = false := by simpa using Ne.symm hc
    simp [List.isPrefixOf, this]
  rw [hp]
  simp

theorem breaks_pass2_n (rep s : List Char) :
    replaceLitGo ['\n'] rep 0 ('\n' :: s) = rep ++ replaceLitGo ['\n'] rep 0 s := by
  rw [replaceLitGo]
  simp [List.isPrefixOf]

theorem breaks_pass2_other (rep : List Char) (c : Char) (s : List Char) (hc : c ≠ '\n') :
    replaceLitGo ['\n'] rep 0 (c :: s) = c :: replaceLitGo ['\n'] rep 0 s := by
  rw [replaceLitGo, isPrefixOf_cons_of_ne '\n' c [] _ hc]
  simp

theorem breaks_two_pass (n : Nat) : ∀ s : List Char, s.length ≤ n →
    replaceLitGo ['\n'] "<br>".data 0 (replaceLitGo ['\n', '\n'] "</p><p>".data 0 s)
      = specBreaks s := by
  induction n using Nat.strong_induction_on with
  | _ n ih =>
    intro s hs
    match s, hs with
    | [], _ => rfl
    | c :: rest, hs =>
      by_cases hc : c = '\n'
      · subst hc
        match rest, hs with
        | [], _ => rw [specBreaks_n_nil]; rfl
        | c2 :: rest2, hs =>
          by_cases hc2 : c2 = '\n'
          · subst hc2
            have hlen : rest2.length ≤ n - 2 := by simp at hs; omega
            have hlt : n - 2 < n := by simp at hs; omega
            rw [breaks_pass1_nn, specBreaks_nn,
              replaceLitGo_copy '\n' [] "<br>".data "</p><p>".data _ (by decide),
              ih (n - 2) hlt rest2 hlen]
          · have hlen : (c2 :: rest2).length ≤ n - 1 := by simp at hs ⊢; omega
            have hlt : n - 1 < n := by simp at hs; omega
            rw [breaks_pass1_n _ c2 rest2 hc2, specBreaks_n c2 rest2 hc2, breaks_pass2_n,
              ih (n - 1) hlt _ hlen]
      · have hlen : rest.length ≤ n - 1 := by simp at hs; omega
        have hlt : n - 1 < n := by simp at hs; omega
        rw [specBreaks_other c rest hc, replaceLitGo,
          isPrefixOf_cons_of_ne '\n' c ['\n'] _ hc]
        simp only [Bool.false_eq_true, if_false]
        rw [breaks_pass2_other _ c _ hc, ih (n - 1) hlt rest hlen]

theorem count_eq_zero_of_forall_ne (x : Char) (l : List Char) (h : ∀ c ∈ l, c ≠ x) :
    l.count x = 0 := by
  rw [List.count_eq_zero]
  intro hx
  exact h x hx rfl

theorem forall_mem_append_of {p : Char → Prop} {l1 l2 : List Char}
    (h1 : ∀ c ∈ l1, p c) (h2 : ∀ c ∈ l2, p c) : ∀ c ∈ l1 ++ l2, p c := by
  intro c hc
  rcases List.mem_append.mp hc with h | h
  · exact h1 c h
  · exact h2 c h

theorem formatMarkdown_data (text : String) :
    (formatMarkdown text).data
      = "<p>".data ++
          replaceLit "\n" "<br>" (replaceLit "\n\n" "</p><p>"
            (replaceHeadings headingOpen "</strong>"
              (replaceDelim "`" codeOpen "</code>"
                (replaceDelim "*" "<em>" "</em>"
                  (replaceDelim "**" "<strong>" "</strong>" text.data)))))
          ++ "</p>".data := rfl

/-- C7: for texts `a`, `b`, `c` without `*`, backtick and line terminator,
`formatMarkdown` maps `**a** *b* ` followed by `c` between backticks to one paragraph holding
`a` in `strong` tags, then `b` in `em` tags, then `c` in the styled `code` tags, separated by
single spaces. -/
theorem C7_bold_italic_code (a b c : String)
    (ha : plainText a) (hb : plainText b) (hc : plainText c) :
    formatMarkdown ("**" ++ a ++ "** *" ++ b ++ "* `" ++ c ++ "`")
      = "<p><strong>" ++ a ++ "</strong> <em>" ++ b ++ "</em> "
        ++ "<code style=\"background:rgba(255,255,255,0.07);padding:2px 6px;border-radius:4px;font-size:13px\">"
        ++ c ++ "</code></p>" := by
  -- the facts about the three texts
  have haS : ∀ ch ∈ a.data, ch ≠ '*' := fun ch h => (ha ch h).1
  have hbS : ∀ ch ∈ b.data, ch ≠ '*' := fun ch h => (hb ch h).1
  have hcS : ∀ ch ∈ c.data, ch ≠ '*' := fun ch h => (hc ch h).1
  have haB : ∀ ch ∈ a.data, ch ≠ backtick := fun ch h => (ha ch h).2.1
  have hbB : ∀ ch ∈ b.data, ch ≠ backtick := fun ch h => (hb ch h).2.1
  have hcB : ∀ ch ∈ c.data, ch ≠ backtick := fun ch h => (hc ch h).2.1
  have haL : ∀ ch ∈ a.data, isLineTerminator ch = false := fun ch h => (ha ch h).2.2
  have hbL : ∀ ch ∈ b.data, isLineTerminator ch = false := fun ch h => (hb ch h).2.2
  have hcL : ∀ ch ∈ c.data, isLineTerminator ch = false := fun ch h => (hc ch h).2.2
  have hnl : ∀ ch : Char, isLineTerminator ch = false → ch ≠ '\n' := by
    intro ch h he
    subst he
    exact absurd h (by decide)
  -- the input, split at its delimiters
  have hin : ("**" ++ a ++ "** *" ++ b ++ "* `" ++ c ++ "`").data
      = ('*' :: ['*']) ++ a.data ++ ('*' :: ['*'])
          ++ ([' ', '*'] ++ b.data ++ ['*', ' ', backtick] ++ c.data ++ [backtick]) := by
    have e1 : ("**" : String).data = ['*', '*'] := rfl
    have e2 : ("** *" : String).data = ['*', '*', ' ', '*'] := rfl
    have e3 : ("* `" : String).data = ['*', ' ', backtick] := rfl
    have e4 : ("`" : String).data = [backtick] := rfl
    rw [String.data_append, String.data_append, String.data_append, String.data_append,
      String.data_append, String.data_append, e1, e2, e3, e4]
    simp only [List.append_assoc, List.cons_append, List.nil_append]
  -- rule 1
  have h1 : replaceDelim "**" "<strong>" "</strong>"
        ("**" ++ a ++ "** *" ++ b ++ "* `" ++ c ++ "`").data
      = ("<strong>".data ++ a.data ++ "</strong>".data ++ [' ']) ++
          (('*' :: []) ++ b.data ++ ('*' :: [])
            ++ ([' ', backtick] ++ c.data ++ [backtick])) := by
    rw [hin]
    show replaceDelimGo ('*' :: ['*']) "<strong>".data "</strong>".data 0 _ = _
    rw [replaceDelimGo_hit '*' ['*'] _ _ a.data _ haS haL, replaceDelimGo_none]
    · simp
    · simp only [List.count_append, count_eq_zero_of_forall_ne '*' _ hbS,
        count_eq_zero_of_forall_ne '*' _ hcS]
      decide
  -- rule 2
  have h2 : replaceDelim "*" "<em>" "</em>"
        (("<strong>".data ++ a.data ++ "</strong>".data ++ [' ']) ++
          (('*' :: []) ++ b.data ++ ('*' :: [])
            ++ ([' ', backtick] ++ c.data ++ [backtick])))
      = ("<strong>".data ++ a.data ++ "</strong>".data ++ [' ']
            ++ "<em>".data ++ b.data ++ "</em>".data ++ [' ']) ++
          ((backtick :: []) ++ c.data ++ (backtick :: []) ++ []) := by
    show replaceDelimGo ('*' :: []) "<em>".data "</em>".data 0 _ = _
    rw [replaceDelimGo_copy '*' [] _ _ _ _ ?_, replaceDelimGo_hit '*' [] _ _ b.data _ hbS hbL,
      replaceDelimGo_none]
    · simp
    · simp only [List.count_append, count_eq_zero_of_forall_ne '*' _ hcS]
      decide
    · exact forall_mem_append_of (forall_mem_append_of (forall_mem_append_of
        (by decide) haS) (by decide)) (by decide)
  -- rule 3
  have h3 : replaceDelim "`" codeOpen "</code>"
        (("<strong>".data ++ a.data ++ "</strong>".data ++ [' ']
            ++ "<em>".data ++ b.data ++ "</em>".data ++ [' ']) ++
          ((backtick :: []) ++ c.data ++ (backtick :: []) ++ []))
      = '<' :: ("strong>".data ++ a.data ++ "</strong>".data ++ [' ']
            ++ "<em>".data ++ b.data ++ "</em>".data ++ [' ']
            ++ codeOpen.data ++ c.data ++ "</code>".data) := by
    show replaceDelimGo (backtick :: []) codeOpen.data "</code>".data 0 _ = _
    rw [replaceDelimGo_copy backtick [] _ _ _ _ ?_,
      replaceDelimGo_hit backtick [] _ _ c.data _ hcB hcL]
    · have e : ("<strong>" : String).data = '<' :: "strong>".data := rfl
      rw [e]
      simp [replaceDelimGo]
    · exact forall_mem_append_of (forall_mem_append_of (forall_mem_append_of
        (forall_mem_append_of (forall_mem_append_of (forall_mem_append_of (forall_mem_append_of
        (by decide) haB) (by decide)) (by decide)) (by decide)) hbB) (by decide)) (by decide)
  -- the result of rule 3 is one line that does not start with `#`
  have hline : ∀ ch ∈ '<' :: ("strong>".data ++ a.data ++ "</strong>".data ++ [' ']
            ++ "<em>".data ++ b.data ++ "</em>".data ++ [' ']
            ++ codeOpen.data ++ c.data ++ "</code>".data), isLineTerminator ch = false := by
    intro ch hch
    rcases List.mem_cons.mp hch with hch | hch
    · subst hch; decide
    · exact forall_mem_append_of (forall_mem_append_of (forall_mem_append_of
        (forall_mem_append_of (forall_mem_append_of (forall_mem_append_of (forall_mem_append_of
        (forall_mem_append_of (forall_mem_append_of (forall_mem_append_of
        (by decide) haL) (by decide)) (by decide)) (by decide)) hbL) (by decide)) (by decide))
        (by decide)) hcL) (by decide) ch hch
  have h4 := replaceHeadingsGo_of_line headingOpen.data "</strong>".data '<' _ (by decide) hline
  have h5 := replaceLitGo_of_not_mem '\n' ['\n'] "</p><p>".data _
    (fun ch hch => hnl ch (hline ch hch))
  have h6 := replaceLitGo_of_not_mem '\n' [] "<br>".data _
    (fun ch hch => hnl ch (hline ch hch))
  apply String.ext
  rw [formatMarkdown_data, h1, h2, h3]
  have e5 : replaceHeadings headingOpen "</strong>"
      ('<' :: ("strong>".data ++ a.data ++ "</strong>".data ++ [' ']
            ++ "<em>".data ++ b.data ++ "</em>".data ++ [' ']
            ++ codeOpen.data ++ c.data ++ "</code>".data)) = _ := h4
  rw [e5]
  have e6 : replaceLit "\n\n" "</p><p>"
      ('<' :: ("strong>".data ++ a.data ++ "</strong>".data ++ [' ']
            ++ "<em>".data ++ b.data ++ "</em>".data ++ [' ']
            ++ codeOpen.data ++ c.data ++ "</code>".data)) = _ := h5
  rw [e6]
  have e7 : replaceLit "\n" "<br>"
      ('<' :: ("strong>".data ++ a.data ++ "</strong>".data ++ [' ']
            ++ "<em>".data ++ b.data ++ "</em>".data ++ [' ']
            ++ codeOpen.data ++ c.data ++ "</code>".data)) = _ := h6
  rw [e7]
  simp [codeOpen]

/-- C7 at the input of the specification, `**a** *b* ` followed by `c` between backticks. -/
theorem C7_bold_italic_code_witness :
    plainText "a" ∧ plainText "b" ∧ plainText "c" ∧
    formatMarkdown ("**" ++ "a" ++ "** *" ++ "b" ++ "* `" ++ "c" ++ "`")
      = "<p><strong>" ++ "a" ++ "</strong> <em>" ++ "b" ++ "</em> "
        ++ "<code style=\"background:rgba(255,255,255,0.07);padding:2px 6px;border-radius:4px;font-size:13px\">"
        ++ "c" ++ "</code></p>" :=
  ⟨by decide, by decide, by decide,
   C7_bold_italic_code "a" "b" "c" (by decide) (by decide) (by decide)⟩

theorem specBreaks_of_no_newline (s : List Char) (h : ∀ c ∈ s, c ≠ '\n') :
    specBreaks s = s := by
  induction s with
  | nil => rfl
  | cons c cs ih =>
    rw [specBreaks_other c cs (h c (List.mem_cons_self _ _)),
      ih fun x hx => h x (List.mem_cons_of_mem _ hx)]

/-- C8: for a text with no `*`, no backtick and no `#`, `formatMarkdown` returns `<p>`, then
the text with its pairs of newlines (left to right, without overlap) turned into `</p><p>`
and its other newlines into `<br>`, then `</p>`; all other characters, `<`, `>` and `&`
among them, are copied, so a text that also has no newline comes back unchanged between
one `<p>` and one `</p>`. -/
theorem C8_paragraphs_and_breaks (text : String)
    (h : ∀ ch ∈ text.data, ch ≠ '*' ∧ ch ≠ backtick ∧ ch ≠ '#') :
    formatMarkdown text = "<p>" ++ String.mk (specBreaks text.data) ++ "</p>" ∧
    ((∀ ch ∈ text.data, ch ≠ '\n') → formatMarkdown text = "<p>" ++ text ++ "</p>") := by
  have hS : text.data.count '*' = 0 :=
    count_eq_zero_of_forall_ne '*' _ fun ch hch => (h ch hch).1
  have hB : text.data.count backtick = 0 :=
    count_eq_zero_of_forall_ne backtick _ fun ch hch => (h ch hch).2.1
  have h1 : replaceDelim "**" "<strong>" "</strong>" text.data = text.data := by
    show replaceDelimGo ('*' :: ['*']) _ _ 0 _ = _
    apply replaceDelimGo_none
    rw [hS]
    decide
  have h2 : replaceDelim "*" "<em>" "</em>" text.data = text.data := by
    show replaceDelimGo ('*' :: []) _ _ 0 _ = _
    apply replaceDelimGo_none
    rw [hS]
    decide
  have h3 : replaceDelim "`" codeOpen "</code>" text.data = text.data := by
    show replaceDelimGo (backtick :: []) _ _ 0 _ = _
    apply replaceDelimGo_none
    rw [hB]
    decide
  have h4 : replaceHeadings headingOpen "</strong>" text.data = text.data :=
    replaceHeadingsGo_of_no_hash _ _ _ true fun ch hch => (h ch hch).2.2
  have h56 : replaceLit "\n" "<br>" (replaceLit "\n\n" "</p><p>" text.data)
      = specBreaks text.data := breaks_two_pass _ _ (le_refl _)
  have hmain : formatMarkdown text = "<p>" ++ String.mk (specBreaks text.data) ++ "</p>" := by
    apply String.ext
    rw [formatMarkdown_data, h1, h2, h3, h4, h56, String.data_append, String.data_append]
  refine ⟨hmain, ?_⟩
  intro hn
  rw [hmain, specBreaks_of_no_newline _ hn]

/-- C8 at a concrete text with markup characters, a paragraph break and a line break. -/
theorem C8_paragraphs_and_breaks_witness :
    (∀ ch ∈ "a <b>&amp;</b>\n\n\nc > d\ne".data, ch ≠ '*' ∧ ch ≠ backtick ∧ ch ≠ '#') ∧
    formatMarkdown "a <b>&amp;</b>\n\n\nc > d\ne"
      = "<p>" ++ String.mk (specBreaks "a <b>&amp;</b>\n\n\nc > d\ne".data) ++ "</p>" ∧
    String.mk (specBreaks "a <b>&amp;</b>\n\n\nc > d\ne".data)
      = "a <b>&amp;</b></p><p><br>c > d<br>e" :=
  ⟨by decide,
   (C8_paragraphs_and_breaks "a <b>&amp;</b>\n\n\nc > d\ne" (by decide)).1,
   by decide⟩

/-! ## Donut chart -/

/-- The rounding `binary64` at known doubles: `0.1`, `1/3` and `0.145` round to the doubles
that these literals denote, `Math.PI` and small integers are doubles already, `2^53 + 1` is a
tie that goes to the even neighbour, and below the least exponent the spacing is `2^-1074`. -/
theorem binary64_samples :
    binary64 (1 / 10) = 3602879701896397 / 36028797018963968 ∧
    binary64 (1 / 3) = 6004799503160661 / 18014398509481984 ∧
    binary64 (145 / 1000) = 5224175567749775 / 36028797018963968 ∧
    binary64 Math_PI = Math_PI ∧
    binary64 (2 * Math_PI) = 2 * Math_PI ∧
    binary64 10000 = 10000 ∧
    binary64 (-3 / 2) = -3 / 2 ∧
    binary64 (2 ^ 53 + 1) = 2 ^ 53 ∧
    binary64 (2 ^ 53 + 3) = 2 ^ 53 + 4 ∧
    binary64 (3 / 2 / 2 ^ 1074) = 2 / 2 ^ 1074 ∧
    binary64 (1 / 3 / 2 ^ 1074) = 0 := by
  decide!

theorem wedges_append (xs ys : List DrawOp) : wedges (xs ++ ys) = wedges xs ++ wedges ys := by
  simp [wedges, List.filterMap_append]

theorem drawItems_legend (fl : ℚ → ℚ) (total : ℚ) (items : List Expense) :
    ∀ (i : Nat) (acc : DonutAcc),
      (drawItems fl total i acc items).legend
        = acc.legend ++ (items.enumFrom i).map fun p =>
            ({ color := colors.getD (p.1 % colors.length) "",
               label := cleanCat p.2.category,
               pct := jsRound (fl (fl (p.2.amount / total) * 100)) } : LegendEntry) := by
  induction items with
  | nil => intro i acc; simp [drawItems]
  | cons item rest ih =>
    intro i acc
    rw [drawItems, ih]
    simp [drawItem]

theorem drawItems_wedges (fl : ℚ → ℚ) (total : ℚ) (items : List Expense) :
    ∀ (i : Nat) (acc : DonutAcc),
      wedges (drawItems fl total i acc items).ops
        = wedges acc.ops ++ wedgeSeq fl total i acc.startAngle items := by
  induction items with
  | nil => intro i acc; simp [drawItems, wedgeSeq]
  | cons item rest ih =>
    intro i acc
    rw [drawItems, ih]
    simp [drawItem, wedgeSeq, wedges_append, wedges]

theorem drawDonut_legend (fl : ℚ → ℚ) (legend0 : List LegendEntry) (expenses : List Expense)
    (totalExp : Option ℚ) (income : ℚ) (savings : Option ℚ) :
    (drawDonut fl legend0 expenses totalExp income savings).legend
      = ((donutItems expenses savings).enumFrom 0).map fun p =>
          ({ color := colors.getD (p.1 % colors.length) "",
             label := cleanCat p.2.category,
             pct := jsRound (fl (fl (p.2.amount / income) * 100)) } : LegendEntry) := by
  unfold drawDonut
  simp only [drawItems_legend, List.take_zero, List.nil_append]

theorem drawDonut_wedges (fl : ℚ → ℚ) (legend0 : List LegendEntry) (expenses : List Expense)
    (totalExp : Option ℚ) (income : ℚ) (savings : Option ℚ) :
    wedges (drawDonut fl legend0 expenses totalExp income savings).ops
      = wedgeSeq fl income 0 (fl (-Math_PI / 2)) (donutItems expenses savings) := by
  unfold drawDonut
  simp only [wedges_append, drawItems_wedges]
  simp [wedges]

theorem donutItems_eq (expenses : List Expense) (savings : Option ℚ) :
    donutItems expenses savings
      = expenses ++ (if isPositive savings = true
          then [({ category := "💾 Savings", amount := orZero savings } : Expense)] else []) := by
  unfold donutItems
  split_ifs <;> simp

theorem wedgeSeq_color (fl : ℚ → ℚ) (total : ℚ) (items : List Expense) :
    ∀ (i : Nat) (a : ℚ) (k : Nat),
      (wedgeSeq fl total i a items)[k]?.map (fun w => w.2.2)
        = items[k]?.map fun _ => colors.getD ((i + k) % colors.length) "" := by
  induction items with
  | nil => intro i a k; simp [wedgeSeq]
  | cons item rest ih =>
    intro i a k
    cases k with
    | zero => simp [wedgeSeq]
    | succ k =>
      simp only [wedgeSeq, List.getElem?_cons_succ]
      rw [ih]
      congr 1
      funext _
      congr 2
      omega

/-- C9 (as the code has it): after a call of `drawDonut` with a non-zero income the legend
holds one entry per slice, in slice order, whatever it held before; the entry at index `k`
has the colour `palette[k mod 11]`, which is also the colour of the wedge at index `k`, the
cleaned label, and the percentage `Math.round` of the product `(amount / income) * 100` as
the arithmetic `fl` computes it.  In exact arithmetic that percentage is the integer nearest
to `100 * amount / income`, a half going up. -/
theorem C9_legend_entries (fl : ℚ → ℚ) (legend0 : List LegendEntry) (expenses : List Expense)
    (totalExp : Option ℚ) (income : ℚ) (savings : Option ℚ) (hincome : income ≠ 0) :
    let items := expenses ++ (if isPositive savings = true
      then [({ category := "💾 Savings", amount := orZero savings } : Expense)] else [])
    (∀ k, (drawDonut fl legend0 expenses totalExp income savings).legend[k]?
      = items[k]?.map fun it =>
          ({ color := colors.getD (k % 11) "",
             label := cleanCat it.category,
             pct := jsRound (fl (fl (it.amount / income) * 100)) } : LegendEntry)) ∧
    (∀ k, (wedges (drawDonut fl legend0 expenses totalExp income savings).ops)[k]?.map
        (fun w => w.2.2)
      = items[k]?.map fun _ => colors.getD (k % 11) "") ∧
    (∀ k, (drawDonut (fun x => x) legend0 expenses totalExp income savings).legend[k]?
      = items[k]?.map fun it =>
          ({ color := colors.getD (k % 11) "",
             label := cleanCat it.category,
             pct := ⌊100 * it.amount / income + 1 / 2⌋ } : LegendEntry)) ∧
    colors.length = 11 := by
  intro items
  have hl : colors.length = 11 := rfl
  have hleg : ∀ (f : ℚ → ℚ) (k : Nat),
      (drawDonut f legend0 expenses totalExp income savings).legend[k]?
        = items[k]?.map fun it =>
            ({ color := colors.getD (k % 11) "",
               label := cleanCat it.category,
               pct := jsRound (f (f (it.amount / income) * 100)) } : LegendEntry) := by
    intro f k
    rw [drawDonut_legend, donutItems_eq, List.getElem?_map, List.getElem?_enumFrom]
    cases items[k]? with
    | none => rfl
    | some it => simp [hl]
  refine ⟨hleg fl, ?_, ?_, hl⟩
  · intro k
    rw [drawDonut_wedges, wedgeSeq_color, donutItems_eq]
    simp only [hl, Nat.zero_add]
  · intro k
    rw [hleg (fun x => x) k]
    cases items[k]? with
    | none => rfl
    | some it =>
      simp only [Option.map_some', jsRound]
      congr 3
      ring

/-- C9 at the chart of the specification, in double arithmetic: `3000` and `7000` of the
income `10000` show `30%` and `70%`, in the first two colours of the palette. -/
theorem C9_legend_entries_witness :
    (10000 : ℚ) ≠ 0 ∧
    (∀ k, (drawDonut binary64 [] sampleExpenses (some 10000) 10000 (some 0)).legend[k]?
      = (sampleExpenses ++ (if isPositive (some 0) = true
          then [({ category := "💾 Savings", amount := orZero (some 0) } : Expense)]
          else []))[k]?.map fun it =>
          ({ color := colors.getD (k % 11) "",
             label := cleanCat it.category,
             pct := jsRound (binary64 (binary64 (it.amount / 10000) * 100)) } : LegendEntry)) ∧
    (drawDonut binary64 [] sampleExpenses (some 10000) 10000 (some 0)).legend
      = [{ color := "#00e5a0", label := "Food", pct := 30 },
         { color := "#00b8ff", label := "Rent", pct := 70 }] :=
  ⟨by decide!,
   (C9_legend_entries binary64 [] sampleExpenses (some 10000) 10000 (some 0) (by decide!)).1,
   by decide!⟩

/-- C9, the claim as stated fails: in double arithmetic `29 / 200` is a little under `0.145`
and its product with `100` is the double just under `14.5`, so the legend of the expense `29`
of the income `200` shows `14%`, while `100 * 29 / 200` is `14.5`, which rounds to `15`. -/
theorem C9_half_rounds_down :
    (drawDonut binary64 [] [{ category := "Food", amount := 29 }] (some 29) 200
        (some 171)).legend
      = [{ color := "#00e5a0", label := "Food", pct := 14 },
         { color := "#00b8ff", label := "Savings", pct := 86 }] ∧
    binary64 (29 / 200) = 5224175567749775 / 36028797018963968 ∧
    binary64 (5224175567749775 / 36028797018963968 * 100)
      = 8162774324609023 / 562949953421312 ∧
    (8162774324609023 / 562949953421312 : ℚ) < 29 / 2 ∧
    (100 * 29 / 200 : ℚ) = 29 / 2 ∧
    ⌊(100 * 29 / 200 : ℚ) + 1 / 2⌋ = 15 := by
  decide!

end PocketSmart
